import Mathlib

/-!
# Reverse value-flow traversal and AST matcher of cppcheck

A shallow embedding of `lib/reverseanalyzer.cpp`, of `lib/matcher.h` (with the
scan loop of `test/testmatcher.cpp`) and of the precedence check of
`lib/ast.cpp`.

Conventions of the embedding.

* A token list is a `List Token`; a `Token*` is an `Option Nat` (an index into
  the list, `none` for `nullptr`).  `previous`/`next` are index arithmetic.
* The analyzer is a record of functions over an explicit analyzer state `σ`;
  every call the traversal makes on it is also appended to a call log.
* Loops that walk AST links (`astParent`, operand links) or that repeat an
  unbounded number of times take a bound; `none` means the bound was hit.
  Dereferencing `nullptr` ends a run with `Outcome.nullDeref`.
-/

namespace Cppcheck

/-! ## Tokens -/

/-- Modelled from the spec: the token category, after `Token::Type` (token.h is not
among the sources). -/
inductive TokType
  | eVariable | eType | eFunction | eKeyword | eName
  | eNumber | eString | eChar | eBoolean | eLiteral | eEnumerator
  | eArithmeticalOp | eComparisonOp | eAssignmentOp | eLogicalOp | eBitOp
  | eIncDecOp | eExtendedOp | eBracket | eLambda | eEllipsis | eOther | eNone
  deriving DecidableEq, Repr

/-- Modelled from the spec: the scope-kind tag, after `Scope::ScopeType`
(symboldatabase.h is not among the sources). -/
inductive ScopeType
  | eGlobal | eClass | eStruct | eUnion | eNamespace | eFunction | eIf | eElse
  | eFor | eWhile | eDo | eSwitch | eUnconditional | eTry | eCatch | eLambda | eEnumInit
  deriving DecidableEq, Repr

/-- Modelled from the spec: a token (token.h is not among the sources): its text
and category, its bracket link, its AST links and the kind of its enclosing
scope (`tok->scope()->type`).  The sequence links are the positions in the list. -/
structure Token where
  str : String
  tokType : TokType
  link : Option Nat
  astParent : Option Nat
  astOperand1 : Option Nat
  astOperand2 : Option Nat
  scopeType : ScopeType
  deriving DecidableEq, Repr

instance : Inhabited Token :=
  ⟨⟨"", TokType.eNone, none, none, none, none, ScopeType.eGlobal⟩⟩

/-- The token at an index. -/
def tokenAt (toks : List Token) (i : Nat) : Token := toks.getD i default

/-- The text `tok->str()`. -/
def str (toks : List Token) (i : Nat) : String := (tokenAt toks i).str

/-- The bracket link `tok->link()`. -/
def link (toks : List Token) (i : Nat) : Option Nat := (tokenAt toks i).link

/-- The AST parent `tok->astParent()`. -/
def astParent (toks : List Token) (i : Nat) : Option Nat := (tokenAt toks i).astParent

/-- The first operand `tok->astOperand1()`. -/
def astOperand1 (toks : List Token) (i : Nat) : Option Nat := (tokenAt toks i).astOperand1

/-- The second operand `tok->astOperand2()`. -/
def astOperand2 (toks : List Token) (i : Nat) : Option Nat := (tokenAt toks i).astOperand2

/-- The scope kind `tok->scope()->type`. -/
def scopeType (toks : List Token) (i : Nat) : ScopeType := (tokenAt toks i).scopeType

/-- The sequence link `tok->previous()`. -/
def previous (i : Nat) : Option Nat := if i = 0 then none else some (i - 1)

/-- The sequence link `tok->next()`. -/
def next (toks : List Token) (i : Nat) : Option Nat :=
  if i + 1 < toks.length then some (i + 1) else none

/-- The offset `tok->tokAt(-2)`. -/
def tokAtMinus2 (i : Nat) : Option Nat := (previous i).bind previous

/-- The test `Token::isName()`. -/
def Token.isName (t : Token) : Bool :=
  t.tokType == TokType.eName || t.tokType == TokType.eType || t.tokType == TokType.eVariable ||
  t.tokType == TokType.eFunction || t.tokType == TokType.eKeyword || t.tokType == TokType.eBoolean

/-- The test `Token::isNumber()`. -/
def Token.isNumber (t : Token) : Bool := t.tokType == TokType.eNumber

/-- The test `Token::isLiteral()`. -/
def Token.isLiteral (t : Token) : Bool :=
  t.tokType == TokType.eNumber || t.tokType == TokType.eString || t.tokType == TokType.eChar ||
  t.tokType == TokType.eBoolean || t.tokType == TokType.eLiteral || t.tokType == TokType.eEnumerator

/-- The test `Token::isAssignmentOp()`. -/
def Token.isAssignmentOp (t : Token) : Bool := t.tokType == TokType.eAssignmentOp

/-- The test `Token::isOp()`. -/
def Token.isOp (t : Token) : Bool :=
  t.tokType == TokType.eArithmeticalOp || t.tokType == TokType.eLogicalOp ||
  t.tokType == TokType.eComparisonOp || t.tokType == TokType.eBitOp ||
  t.tokType == TokType.eAssignmentOp || t.tokType == TokType.eIncDecOp

/-- The test `tok->isAssignmentOp()` on a list position. -/
def isAssignmentOp (toks : List Token) (i : Nat) : Bool := (tokenAt toks i).isAssignmentOp

/-! ## Token patterns -/

/-- Cut a character list at every occurrence of a separator. -/
def splitOnChar (c : Char) : List Char → List (List Char)
  | [] => [[]]
  | x :: xs =>
    if x = c then [] :: splitOnChar c xs
    else
      match splitOnChar c xs with
      | [] => [[x]]
      | w :: ws => (x :: w) :: ws

/-- A pattern as words (one per token) of alternatives. -/
def parsePattern (p : String) : List (List String) :=
  (splitOnChar ' ' p.data).map (fun w => (splitOnChar '|' w).map String.mk)

/-- One alternative of a pattern word against one token: the `%cmd%` forms
used by the sources, any other text is compared with the token text. -/
def matchAlt (t : Token) (alt : String) : Bool :=
  if alt = "%name%" then t.isName
  else if alt = "%num%" then t.isNumber
  else if alt = "%oror%" then t.tokType == TokType.eLogicalOp && t.str == "||"
  else if alt = "%assign%" then t.isAssignmentOp
  else if alt = "%op%" then t.isOp
  else t.str == alt

/-- Match consecutive tokens against consecutive pattern words. -/
def matchWords (toks : List Token) : Option Nat → List (List String) → Bool
  | _, [] => true
  | none, _ :: _ => false
  | some i, w :: ws => w.any (matchAlt (tokenAt toks i)) && matchWords toks (next toks i) ws

/-- Modelled from the spec: `Token::Match` lives in token.cpp, which is not among
the sources; the spec names it only through the token categories the traversal
tests.  A pattern is a blank-separated list of words, each word a `|`-separated
list of alternatives; a null token matches nothing. -/
def tokenMatch (toks : List Token) (tok : Option Nat) (pattern : String) : Bool :=
  matchWords toks tok (parsePattern pattern)

/-- Compare consecutive tokens with consecutive words, literally. -/
def matchLiteralWords (toks : List Token) : Option Nat → List String → Bool
  | _, [] => true
  | none, _ :: _ => false
  | some i, w :: ws => str toks i == w && matchLiteralWords toks (next toks i) ws

/-- Modelled from the spec: `Token::simpleMatch` (token.h, not among the sources)
compares consecutive tokens with the blank-separated words of the pattern,
literally; a null token matches nothing. -/
def simpleMatch (toks : List Token) (tok : Option Nat) (pattern : String) : Bool :=
  matchLiteralWords toks tok ((splitOnChar ' ' pattern.data).map String.mk)

/-! ## AST helpers of astutils -/

/-- Modelled from the spec: `astIsLHS` (astutils.h is not among the sources):
the token is the first operand of its parent. -/
def astIsLHS (toks : List Token) (tok : Nat) : Bool :=
  match astParent toks tok with
  | none => false
  | some p => astOperand1 toks p == some tok

/-- Modelled from the spec: `astIsRHS` (astutils.h is not among the sources):
the token is the right-hand operand of its parent. -/
def astIsRHS (toks : List Token) (tok : Nat) : Bool :=
  match astParent toks tok with
  | none => false
  | some p => astOperand2 toks p == some tok

/-- The walk of `Token::astTop()`: follow parent links to the root. -/
def astTop (toks : List Token) : Nat → Nat → Option Nat
  | 0, _ => none
  | k + 1, tok =>
    match astParent toks tok with
    | none => some tok
    | some p => astTop toks k p

/-- The condition of the header whose keyword is `tok` (second half of `getCondTok`). -/
def condOfHeader (toks : List Token) (tok : Nat) : Option Nat :=
  match next toks tok with
  | none => none
  | some nx =>
    match astOperand2 toks nx with
    | none => none
    | some op2 =>
      if str toks tok == "for" && str toks op2 == ";" && (astOperand2 toks op2).isSome then
        (astOperand2 toks op2).bind (astOperand1 toks)
      else if str toks op2 == ";" then astOperand1 toks op2
      else some op2

/-- Modelled from the spec: `getCondTok` (astutils.h is not among the sources):
from the `(` of a header step back to its keyword, then take the condition
operand of the header (the middle clause of a `for`). -/
def getCondTok (toks : List Token) : Nat → Option Nat
  | 0 => if str toks 0 == "(" then none else condOfHeader toks 0
  | t + 1 => if str toks (t + 1) == "(" then getCondTok toks t else condOfHeader toks (t + 1)

/-- Modelled from the spec: `getCondTokFromEnd` (astutils.h is not among the
sources): the controlling condition of the block that ends at `endBlock`, for
`if`, `else`, `while` and `for`; null when the block has none. -/
def getCondTokFromEnd (toks : List Token) : Nat → Nat → Option (Option Nat)
  | 0, _ => none
  | k + 1, endBlock =>
    if !(str toks endBlock == "\x7d") then some none
    else
      match link toks endBlock with
      | none => some none
      | some startBlock =>
        if !(str toks startBlock == "\x7b") then some none
        else if simpleMatch toks (previous startBlock) ")" then
          match (previous startBlock).bind (link toks) with
          | none => some none
          | some open_ => some (getCondTok toks open_)
        else if simpleMatch toks (tokAtMinus2 startBlock) "\x7d else \x7b" then
          match tokAtMinus2 startBlock with
          | none => some none
          | some e => getCondTokFromEnd toks k e
        else some none

/-! ## Actions and the analyzer contract -/

/-- Modelled from the spec: `GenericAnalyzer::Action` (analyzer.h is not among the
sources): a flag set over Read, Write and Inconclusive; None is the empty set. -/
structure Action where
  read : Bool
  write : Bool
  inconclusive : Bool
  deriving DecidableEq, Repr

namespace Action

/-- The empty flag set `Action::None`. -/
def None : Action := ⟨false, false, false⟩

/-- The flag `Action::Read`. -/
def Read : Action := ⟨true, false, false⟩

/-- The flag `Action::Write`. -/
def Write : Action := ⟨false, true, false⟩

/-- The flag `Action::Inconclusive`. -/
def Inconclusive : Action := ⟨false, false, true⟩

/-- The operator `|` (and `|=`): the union of the flag sets. -/
def combine (a b : Action) : Action :=
  ⟨a.read || b.read, a.write || b.write, a.inconclusive || b.inconclusive⟩

/-- The predicate `isRead()`. -/
def isRead (a : Action) : Bool := a.read

/-- The predicate `isModified()`. -/
def isModified (a : Action) : Bool := a.write

/-- The predicate `isInconclusive()`. -/
def isInconclusive (a : Action) : Bool := a.inconclusive

end Action

/-- Modelled from the spec: the `GenericAnalyzer` contract (analyzer.h is not among
the sources), over an explicit analyzer state: `analyze`, `evaluate` and
`lowerToInconclusive` read the state, `update` and `assume` change it. -/
structure GenericAnalyzer (σ : Type) where
  analyze : σ → Nat → Action
  evaluate : σ → Nat → List Int
  update : σ → Nat → Action → σ
  assume : σ → Nat → Bool → Nat → σ
  lowerToInconclusive : σ → Bool

/-- Modelled from the spec: the forward engine `valueFlowGenericForward`
(forwardanalyzer.h is not among the sources), in its two overloads; it acts on
the shared analyzer only. -/
structure ForwardEngine (σ : Type) where
  forward : σ → Option Nat → σ
  forwardRange : σ → Option Nat → Nat → σ

/-- One call made by the traversal. -/
inductive Event
  | analyze (tok : Nat)
  | update (tok : Nat) (action : Action)
  | assume (condTok : Nat) (state : Bool) (atTok : Nat)
  | forward (start : Option Nat)
  | forwardRange (start : Option Nat) (stop : Nat)
  deriving DecidableEq, Repr

/-- Is the logged call an `analyze` call. -/
def Event.isAnalyze : Event → Bool
  | Event.analyze _ => true
  | _ => false

/-- The analyzer state together with the log of calls made so far. -/
structure RunState (σ : Type) where
  st : σ
  log : List Event
  deriving DecidableEq, Repr

/-- How a traversal ends: the loop was left, or a null pointer was dereferenced. -/
inductive Outcome (σ : Type)
  | finished (s : RunState σ)
  | nullDeref (s : RunState σ)
  deriving DecidableEq, Repr

/-- The call `analyzer->analyze(tok)`, logged. -/
def callAnalyze {σ : Type} (an : GenericAnalyzer σ) (s : RunState σ) (tok : Nat) :
    Action × RunState σ :=
  (an.analyze s.st tok, ⟨s.st, s.log ++ [Event.analyze tok]⟩)

/-- The call `analyzer->update(tok, action)`, logged. -/
def callUpdate {σ : Type} (an : GenericAnalyzer σ) (s : RunState σ) (tok : Nat) (a : Action) :
    RunState σ :=
  ⟨an.update s.st tok a, s.log ++ [Event.update tok a]⟩

/-- The call `analyzer->assume(condTok, state, at)`, logged. -/
def callAssume {σ : Type} (an : GenericAnalyzer σ) (s : RunState σ) (condTok : Nat) (b : Bool)
    (atTok : Nat) : RunState σ :=
  ⟨an.assume s.st condTok b atTok, s.log ++ [Event.assume condTok b atTok]⟩

/-- The call `valueFlowGenericForward(start, analyzer, settings)`, logged. -/
def callForward {σ : Type} (fw : ForwardEngine σ) (s : RunState σ) (start : Option Nat) :
    RunState σ :=
  ⟨fw.forward s.st start, s.log ++ [Event.forward start]⟩

/-- The call `valueFlowGenericForward(start, end, analyzer, settings)`, logged. -/
def callForwardRange {σ : Type} (fw : ForwardEngine σ) (s : RunState σ) (start : Option Nat)
    (stop : Nat) : RunState σ :=
  ⟨fw.forwardRange s.st start stop, s.log ++ [Event.forwardRange start stop]⟩

/-! ## The reverse traversal (lib/reverseanalyzer.cpp) -/

namespace ReverseTraversal

variable {σ : Type}

/-- The helper `ReverseTraversal::evalCond`: does the value set of the condition
hold a nonzero value, does it hold zero. -/
def evalCond (an : GenericAnalyzer σ) (st : σ) (tok : Nat) : Bool × Bool :=
  let result := an.evaluate st tok
  (result.any (fun x => x != 0), result.any (fun x => x == 0))

/-- The step `ReverseTraversal::update`: analyze the token, record a read,
and tell whether the walk may go on. -/
def update (an : GenericAnalyzer σ) (s : RunState σ) (tok : Nat) : Bool × RunState σ :=
  let (action, s1) := callAnalyze an s tok
  let s2 := if action.isRead then callUpdate an s1 tok action else s1
  if action.isInconclusive && !an.lowerToInconclusive s2.st then (false, s2)
  else if action.isModified then (false, s2)
  else (true, s2)

/-- Modelled from the spec: `visitAstNodes` (astutils.h is not among the sources),
a pre-order walk over the operand links with an explicit stack; the visitor
returns whether the walk is done.  Specialised to the visitor of
`analyzeRecursive`, which accumulates the action of every visited node. -/
def visitAnalyze (an : GenericAnalyzer σ) (toks : List Token) :
    Nat → List (Option Nat) → Action → RunState σ → Option (Action × RunState σ)
  | _, [], result, s => some (result, s)
  | 0, _ :: _, _, _ => none
  | k + 1, none :: rest, result, s => visitAnalyze an toks k rest result s
  | k + 1, some tok :: rest, result, s =>
    let (action, s1) := callAnalyze an s tok
    let result1 := result.combine action
    if result1.isModified || result1.isInconclusive then some (result1, s1)
    else visitAnalyze an toks k (astOperand1 toks tok :: astOperand2 toks tok :: rest) result1 s1

/-- The helper `ReverseTraversal::analyzeRecursive`. -/
def analyzeRecursive (an : GenericAnalyzer σ) (toks : List Token) (k : Nat) (s : RunState σ)
    (start : Option Nat) : Option (Action × RunState σ) :=
  visitAnalyze an toks k [start] Action.None s

/-- The loop of `ReverseTraversal::analyzeRange`; the counter bounds the number
of tokens left in the list. -/
def analyzeRangeLoop (an : GenericAnalyzer σ) (toks : List Token) :
    Nat → Option Nat → Option Nat → Action → RunState σ → Action × RunState σ
  | 0, _, _, result, s => (result, s)
  | n + 1, tok, stop, result, s =>
    match tok with
    | none => (result, s)
    | some t =>
      if tok = stop then (result, s)
      else
        let (action, s1) := callAnalyze an s t
        if action.isModified || action.isInconclusive then (action, s1)
        else analyzeRangeLoop an toks n (next toks t) stop (result.combine action) s1

/-- The helper `ReverseTraversal::analyzeRange`. -/
def analyzeRange (an : GenericAnalyzer σ) (toks : List Token) (s : RunState σ)
    (start stop : Option Nat) : Action × RunState σ :=
  analyzeRangeLoop an toks (toks.length + 1) start stop Action.None s

/-- The verdict on one `&&`, `||` or `?` ancestor in `isDeadCode`, after the
unknown-condition check: `true` when the loop goes on to the next ancestor. -/
def deadCodeContinue (toks : List Token) (parent : Nat) (opSide : Nat)
    (checkThen checkElse : Bool) : Bool :=
  (str toks parent == "?" &&
      ((!checkThen && opSide == 1) || (!checkElse && opSide == 2))) ||
    (!checkThen && str toks parent == "&&") ||
    (!checkElse && str toks parent == "||")

/-- The loop of `ReverseTraversal::isDeadCode`. -/
def isDeadCodeLoop (an : GenericAnalyzer σ) (toks : List Token) (k : Nat) :
    Nat → Option Nat → Nat → RunState σ → Option (Option Nat × RunState σ)
  | 0, _, _, _ => none
  | _ + 1, none, _, s => some (none, s)
  | n + 1, some tok, opSide, s =>
    match astParent toks tok with
    | none => some (none, s)
    | some parent =>
      if some tok != astOperand2 toks parent then
        isDeadCodeLoop an toks k n (some parent) opSide s
      else
        let opSide1 :=
          if tokenMatch toks (some parent) ":" then
            (if astIsLHS toks tok then 1 else if astIsRHS toks tok then 1 else 0)
          else opSide
        if !tokenMatch toks (some parent) "%oror%|&&|?" then
          isDeadCodeLoop an toks k n (some parent) opSide1 s
        else
          match astOperand1 toks parent with
          | none => isDeadCodeLoop an toks k n (some parent) opSide1 s
          | some condTok =>
            let (checkThen, checkElse) := evalCond an s.st condTok
            if !checkThen && !checkElse then
              match analyzeRecursive an toks k s (some condTok) with
              | none => none
              | some (action, s1) =>
                if action.isRead || action.isModified then some (some parent, s1)
                else if deadCodeContinue toks parent opSide1 checkThen checkElse then
                  isDeadCodeLoop an toks k n (some parent) opSide1 s1
                else some (some parent, s1)
            else if deadCodeContinue toks parent opSide1 checkThen checkElse then
              isDeadCodeLoop an toks k n (some parent) opSide1 s
            else some (some parent, s)

/-- The helper `ReverseTraversal::isDeadCode`. -/
def isDeadCode (an : GenericAnalyzer σ) (toks : List Token) (k : Nat) (s : RunState σ)
    (tok : Nat) : Option (Option Nat × RunState σ) :=
  isDeadCodeLoop an toks k k (some tok) 0 s

/-- The helper `ReverseTraversal::assignExpr`. -/
def assignExpr (toks : List Token) : Nat → Nat → Option (Option Nat)
  | 0, _ => none
  | k + 1, tok =>
    match astParent toks tok with
    | none => some none
    | some parent =>
      if !astIsRHS toks tok then some none
      else if isAssignmentOp toks parent then some (some parent)
      else assignExpr toks k parent

/-- The helper `ReverseTraversal::isUnevaluated`. -/
def isUnevaluated (toks : List Token) (tok : Nat) : Option Nat :=
  if tokenMatch toks (some tok) ")|>" then
    match link toks tok with
    | none => none
    | some start =>
      if tokenMatch toks (previous start) "sizeof|decltype (" then previous start
      else if simpleMatch toks (some start) "<" then some start
      else none
  else none

/-- The inner loop of the assignment step of `traverse`: climb from the
assignment while the current token is an assignment operator, accumulating the
analysis of the left operands. -/
def assignTopLoop (an : GenericAnalyzer σ) (toks : List Token) (k : Nat) :
    Nat → Nat → Action → RunState σ → Option (Nat × Action × RunState σ)
  | 0, _, _, _ => none
  | n + 1, assignTop, action, s =>
    if isAssignmentOp toks assignTop then
      match analyzeRecursive an toks k s (astOperand1 toks assignTop) with
      | none => none
      | some (a, s1) =>
        match astParent toks assignTop with
        | none => some (assignTop, action.combine a, s1)
        | some parent => assignTopLoop an toks k n parent (action.combine a) s1
    else some (assignTop, action, s)

/-- What one pass through the body of the loop of `traverse` does: `leave` is a
`break`, `again` a `continue` with the value the cursor variable then holds
(the loop increment steps back from it), `crash` a null dereference. -/
inductive Step (σ : Type)
  | leave (s : RunState σ)
  | again (tok : Option Nat) (s : RunState σ)
  | crash (s : RunState σ)
  deriving DecidableEq, Repr

/-- The assignment step of `traverse` (evaluate the left side of an assignment
before its right side). -/
def assignStep (an : GenericAnalyzer σ) (fw : ForwardEngine σ) (toks : List Token) (k : Nat)
    (assignTok : Nat) (s : RunState σ) : Option (Step σ) :=
  match assignTopLoop an toks k k assignTok Action.None s with
  | none => none
  | some (assignTop, action, s1) =>
    if action.isRead || action.isModified then
      if !action.isModified then
        some (Step.leave (callForward fw s1 (astOperand1 toks assignTop)))
      else some (Step.leave s1)
    else
      some (Step.again (previous assignTop) (callForward fw s1 (astOperand2 toks assignTop)))

/-- The condition-first part of the block-end step: for the condition of a
`for` or `while` header, analyze it and forward it; `true` when the traversal
stops because the condition is modified. -/
def loopCondFirst (an : GenericAnalyzer σ) (fw : ForwardEngine σ) (toks : List Token) (k : Nat)
    (condTok top : Nat) (s : RunState σ) : Option (Bool × RunState σ) :=
  if tokenMatch toks (previous top) "for|while (" then
    match analyzeRecursive an toks k s (some condTok) with
    | none => none
    | some (action, s1) =>
      if action.isModified then some (true, s1)
      else some (false, callForward fw s1 (some condTok))
  else some (false, s)

/-- The body part of the block-end step (the scan of the block body and the
`assume` or forward call that follows it): the state in which the condition is
then evaluated. -/
def blockBodyState (an : GenericAnalyzer σ) (fw : ForwardEngine σ) (toks : List Token)
    (tok condTok start : Nat) (s1 : RunState σ) : RunState σ :=
  let inElse := simpleMatch toks (previous start) "else \x7b"
  let (action, s2) := analyzeRange an toks s1 (some start) (some tok)
  if action.isModified then callAssume an s2 condTok (!inElse) condTok
  else if action.isRead then callForwardRange fw s2 (some start) tok
  else s2

/-- The block-end step of `traverse` (the cursor is on a `}`). -/
def blockEndStep (an : GenericAnalyzer σ) (fw : ForwardEngine σ) (toks : List Token) (k : Nat)
    (tok : Nat) (s : RunState σ) : Option (Step σ) :=
  match getCondTokFromEnd toks k tok with
  | none => none
  | some none => some (Step.leave s)
  | some (some condTok) =>
    match astTop toks k condTok with
    | none => none
    | some top =>
      match loopCondFirst an fw toks k condTok top s with
      | none => none
      | some (true, s1) => some (Step.leave s1)
      | some (false, s1) =>
        match link toks tok with
        | none => some (Step.crash s1)
        | some start =>
          let inElse := simpleMatch toks (previous start) "else \x7b"
          let (action, s2) := analyzeRange an toks s1 (some start) (some tok)
          let s3 :=
            if action.isModified then callAssume an s2 condTok (!inElse) condTok
            else if action.isRead then callForwardRange fw s2 (some start) tok
            else s2
          let (checkThen, checkElse) := evalCond an s3.st condTok
          if inElse && checkThen then some (Step.leave s3)
          else if !inElse && checkElse then some (Step.leave s3)
          else some (Step.again (previous top) s3)

/-- The test at the head of the block-start step: is the `{` the start of a
loop body (`do {`, or `for (...) {` / `while (...) {`); `none` is a null
dereference in `tok->linkAt(-1)->previous()`. -/
def startsLoopBody (toks : List Token) (tok : Nat) : Option Bool :=
  match previous tok with
  | none => some false
  | some p =>
    if simpleMatch toks (some p) "do" then some true
    else if str toks p == ")" then
      match link toks p with
      | none => none
      | some l => some (tokenMatch toks (previous l) "for|while (")
    else some false

/-- The block-start step of `traverse` (the cursor is on a `{`). -/
def blockStartStep (an : GenericAnalyzer σ) (toks : List Token) (tok : Nat) (s : RunState σ) :
    Step σ :=
  match startsLoopBody toks tok with
  | none => Step.crash s
  | some isLoop =>
    let (modified, s1) :=
      if isLoop then
        let (action, s1) := analyzeRange an toks s (some tok) (link toks tok)
        (action.isModified, s1)
      else (false, s)
    if modified then Step.leave s1
    else
      let tok1 :=
        if simpleMatch toks (tokAtMinus2 tok) "\x7d else \x7b" then (tokAtMinus2 tok).bind (link toks)
        else some tok
      match tok1 with
      | none => Step.crash s1
      | some t1 =>
        if simpleMatch toks (previous t1) ") \x7b" then
          Step.again ((previous t1).bind (link toks)) s1
        else Step.again (some t1) s1

/-- The body of the loop of `ReverseTraversal::traverse`, with the cursor on `tok`. -/
def loopBody (an : GenericAnalyzer σ) (fw : ForwardEngine σ) (toks : List Token) (start : Nat)
    (k : Nat) (tok : Nat) (s : RunState σ) : Option (Step σ) :=
  if tok == start || (str toks tok == "\x7b" &&
      (scopeType toks tok == ScopeType.eFunction || scopeType toks tok == ScopeType.eLambda)) then
    some (Step.leave s)
  else if tokenMatch toks (some tok) "return|break|continue" then some (Step.leave s)
  else
    match assignExpr toks k tok with
    | none => none
    | some (some assignTok) => assignStep an fw toks k assignTok s
    | some none =>
      if str toks tok == "\x7d" then blockEndStep an fw toks k tok s
      else if str toks tok == "\x7b" then some (blockStartStep an toks tok s)
      else
        match isUnevaluated toks tok with
        | some nxt => some (Step.again (some nxt) s)
        | none =>
          match isDeadCode an toks k s tok with
          | none => none
          | some (some parent, s1) => some (Step.again (some parent) s1)
          | some (none, s1) =>
            let (ok, s2) := update an s1 tok
            if ok then some (Step.again (some tok) s2) else some (Step.leave s2)

/-- The loop of `ReverseTraversal::traverse`: `n` bounds the number of passes,
`k` the length of every inner walk over AST links. -/
def traverseLoop (an : GenericAnalyzer σ) (fw : ForwardEngine σ) (toks : List Token)
    (start : Nat) (k : Nat) : Nat → Option Nat → RunState σ → Option (Outcome σ)
  | _, none, s => some (Outcome.finished s)
  | 0, some _, _ => none
  | n + 1, some tok, s =>
    match loopBody an fw toks start k tok s with
    | none => none
    | some (Step.leave s1) => some (Outcome.finished s1)
    | some (Step.crash s1) => some (Outcome.nullDeref s1)
    | some (Step.again none s1) => some (Outcome.nullDeref s1)
    | some (Step.again (some t) s1) => traverseLoop an fw toks start k n (previous t) s1

/-- The entry `ReverseTraversal::traverse(start)`. -/
def traverse (an : GenericAnalyzer σ) (fw : ForwardEngine σ) (toks : List Token) (k n : Nat)
    (start : Nat) (s : RunState σ) : Option (Outcome σ) :=
  traverseLoop an fw toks start k n (previous start) s

end ReverseTraversal

/-! ## The AST matcher (lib/matcher.h) and the scan of test/testmatcher.cpp -/

namespace Matcher

/-- The map `std::unordered_map<std::string, const Token*>`, as an association
list with one entry per name. -/
abbrev Bindings := List (String × Option Nat)

/-- The record `Matcher::Context`. -/
structure Context where
  tokens : Bindings
  deriving DecidableEq, Repr

/-- The member `Context::bind(name, tok)`: `tokens[name] = tok`. -/
def Context.bind (ctx : Context) (name : String) (tok : Option Nat) : Context :=
  ⟨(name, tok) :: ctx.tokens.filter (fun e => e.1 != name)⟩

/-- The callable `F` of a `Matcher<Token>`: from the context and a token pointer
to the result pointer and the context it leaves; `none` is a null dereference. -/
abbrev MatchFn := Context → Option Nat → Option (Option Nat × Context)

/-- The call operator of `Matcher::BindMatcher`. -/
def BindMatcher (m : MatchFn) (name : String) : MatchFn := fun ctx x =>
  match m ctx x with
  | none => none
  | some (none, c) => some (none, c)
  | some (some r, c) => some (some r, c.bind name x)

/-- The member `Matcher::bind(name)`. -/
def bind (m : MatchFn) (name : String) : MatchFn := BindMatcher m name

/-- The call operator of `Matcher::SubMatcher`. -/
def SubMatcher (m subMatch : MatchFn) : MatchFn := fun ctx x =>
  match m ctx x with
  | none => none
  | some (none, c) => some (none, c)
  | some (some r, c) =>
    match subMatch c (some r) with
    | none => none
    | some (none, c1) => some (none, c1)
    | some (some _, c1) => some (some r, c1)

/-- The member `Matcher::operator()(subMatch)`: compose a submatch. -/
def compose (m subMatch : MatchFn) : MatchFn := SubMatcher m subMatch

/-- The record `Matcher::Result`. -/
structure Result where
  tok : Option Nat
  tokens : Bindings
  deriving DecidableEq, Repr

/-- The function `Matcher::astMatch(tok, m)`. -/
def astMatch (tok : Option Nat) (m : MatchFn) : Option Result :=
  match m ⟨[]⟩ tok with
  | none => none
  | some (r, ctx) => some ⟨r, ctx.tokens⟩

/-- The matcher `Matcher::pattern(p)`. -/
def pattern (toks : List Token) (p : String) : MatchFn := fun ctx tok =>
  some (if tokenMatch toks tok p then tok else none, ctx)

/-- The matcher `Matcher::binary(op1, op2)`. -/
def binary (toks : List Token) (op1 op2 : MatchFn) : MatchFn := fun ctx tok =>
  match tok with
  | none => none
  | some t =>
    if (astOperand1 toks t).isNone && (astOperand2 toks t).isNone then some (none, ctx)
    else
      match op1 ctx (astOperand1 toks t) with
      | none => none
      | some (none, c1) => some (none, c1)
      | some (some _, c1) =>
        match op2 c1 (astOperand2 toks t) with
        | none => none
        | some (none, c2) => some (none, c2)
        | some (some _, c2) => some (some t, c2)

/-- The loop of `TestMatcher::astMatch`: the first token at which the matcher
matches; the counter bounds the number of tokens left in the list. -/
def scanLoop (toks : List Token) (m : MatchFn) : Nat → Option Nat → Option Result
  | 0, _ => some ⟨none, []⟩
  | _ + 1, none => some ⟨none, []⟩
  | n + 1, some t =>
    match astMatch (some t) m with
    | none => none
    | some mr => if mr.tok.isSome then some mr else scanLoop toks m n (next toks t)

/-- The helper `TestMatcher::astMatch(code, m)` on the token list of the code. -/
def testAstMatch (toks : List Token) (m : MatchFn) : Option Result :=
  scanLoop toks m (toks.length + 1) (if toks.length = 0 then none else some 0)

end Matcher

/-! ## The AST and the precedence check (lib/ast.h, lib/ast.cpp) -/

/-- The record `AST` of ast.h: the token of the node (null for a failed AST),
the child ASTs and the token after the parsed text. -/
inductive AST
  | mk (tok : Option Nat) (children : List AST) (next : Option Nat)

namespace AST

/-- The member `tok`. -/
def tok : AST → Option Nat
  | mk t _ _ => t

/-- The member `children`. -/
def children : AST → List AST
  | mk _ cs _ => cs

/-- The member `next`. -/
def next : AST → Option Nat
  | mk _ _ n => n

/-- The constructor `AST(Token* tok)`; `AST{}` is `ofTok toks none`. -/
def ofTok (toks : List Token) (tok : Option Nat) : AST :=
  match tok with
  | none => mk none [] none
  | some t => mk (some t) [] (Cppcheck.next toks t)

/-- The failed AST `AST{}`: no token, no children, no next token. -/
def nullAst : AST := mk none [] none

/-- The constructor `AST(Token* tok, AST op1)`. -/
def node1 (tok : Option Nat) (op1 : AST) : AST := mk tok [op1] op1.next

/-- The constructor `AST(Token* tok, AST op1, AST op2)`. -/
def node2 (tok : Option Nat) (op1 op2 : AST) : AST := mk tok [op1, op2] op2.next

/-- The member `AST::failed()`. -/
def failed (a : AST) : Bool := a.tok.isNone

/-- The member `AST::isPrefixUnary()`. -/
def isPrefixUnary (a : AST) : Bool :=
  match a.children with
  | [front, _] => front.failed
  | _ => a.failed

/-- The member `AST::isPostfixUnary()`. -/
def isPostfixUnary (a : AST) : Bool := a.children.length == 1

/-- The member `AST::isBinary()`. -/
def isBinary (a : AST) : Bool :=
  match a.children with
  | [front, _] => !front.failed
  | _ => false

end AST

/-- The function `getPrecedence` of ast.cpp. -/
def getPrecedence (toks : List Token) (ast : AST) : Nat :=
  if tokenMatch toks ast.tok "::" then 1
  else if tokenMatch toks ast.tok "\x7b|[|.|(" then 2
  else if ast.isPostfixUnary && tokenMatch toks ast.tok "++|--" then 2
  else if ast.isPrefixUnary && tokenMatch toks ast.tok "++|--|+|-|!|~|*|&" then 3
  else if tokenMatch toks ast.tok ".*" then 4
  else if tokenMatch toks ast.tok "*|/|%" then 5
  else if tokenMatch toks ast.tok "+|-" then 6
  else if tokenMatch toks ast.tok "<<|>>" then 7
  else if tokenMatch toks ast.tok "<=>" then 8
  else if tokenMatch toks ast.tok "<|<=|>|>=" then 9
  else if tokenMatch toks ast.tok "==|!=" then 10
  else if simpleMatch toks ast.tok "&" then 11
  else if simpleMatch toks ast.tok "|" then 12
  else if simpleMatch toks ast.tok "&&" then 13
  else if simpleMatch toks ast.tok "||" then 14
  else if tokenMatch toks ast.tok "?|:|throw|%assign%" then 15
  else if simpleMatch toks ast.tok "," then 16
  else 0

/-- The loop of `compilePrecedence`: is there a child whose precedence is below `p`. -/
def childBelow (toks : List Token) (p : Nat) : List AST → Bool
  | [] => false
  | child :: rest => if getPrecedence toks child < p then true else childBelow toks p rest

/-- The function `compilePrecedence` of ast.cpp. -/
def compilePrecedence (toks : List Token) (ast : AST) : AST :=
  let p := getPrecedence toks ast
  if childBelow toks p ast.children then AST.nullAst else ast

/-- The token texts that `getPrecedence` tests. -/
def precedenceTexts : List String :=
  ["::", "\x7b", "[", ".", "(", "++", "--", "+", "-", "!", "~", "*", "&", ".*", "/", "%",
   "<<", ">>", "<=>", "<", "<=", ">", ">=", "==", "!=", "|", "&&", "||", "?", ":", "throw", ","]

/-- The prefix operators that `getPrecedence` puts at level 3. -/
def prefixOperatorTexts : List String := ["++", "--", "+", "-", "!", "~", "*", "&"]

namespace ParserEngine

/-- A parser rule: the callable `AST(ParserEngine&, Token*)`, called on a token
that is not null (the engine itself holds no state). -/
abbrev Rule := Nat → AST

/-- The member `ParserEngine::parse(tok, rule)`. -/
def parse (tok : Option Nat) (rule : Rule) : AST :=
  match tok with
  | some t => rule t
  | none => AST.nullAst

/-- The member `ParserEngine::If(tok, b)`. -/
def If (toks : List Token) (tok : Nat) (b : Bool) : AST :=
  if b then AST.ofTok toks (some tok) else AST.nullAst

/-- The member `ParserEngine::sequence(tok, rules...)`: each rule starts where
the AST before it ended. -/
def sequence (tok : Option Nat) : List Rule → List AST
  | [] => []
  | rule :: rest =>
    let a := parse tok rule
    a :: sequence a.next rest

/-- The member `ParserEngine::prefixSequence(tok, opRule, rule)`. -/
def prefixSequence (tok : Nat) (opRule rule : Rule) : AST :=
  match sequence (some tok) [opRule, rule] with
  | [_, back] => if back.failed then back else AST.node2 (some tok) AST.nullAst back
  | _ => AST.nullAst

/-- The member `ParserEngine::postfixSequence(tok, rule, opRule)`. -/
def postfixSequence (tok : Nat) (rule opRule : Rule) : AST :=
  match sequence (some tok) [rule, opRule] with
  | [_, back] => if back.failed then back else AST.node1 (some tok) back
  | _ => AST.nullAst

/-- The member `ParserEngine::infixSequence(tok, rule1, opRule, rule2)`. -/
def infixSequence (tok : Nat) (rule1 opRule rule2 : Rule) : AST :=
  match sequence (some tok) [rule1, opRule, rule2] with
  | [a0, a1, back] => if back.failed then back else AST.node2 a1.tok a0 back
  | _ => AST.nullAst

/-- The rule `parseAtom`. -/
def parseAtom (toks : List Token) : Rule := fun tok =>
  If toks tok ((tokenAt toks tok).isName || (tokenAt toks tok).isLiteral)

/-- The rule `parseOp`. -/
def parseOp (toks : List Token) : Rule := fun tok =>
  If toks tok (tokenMatch toks (some tok) "%op%|(|\x7b|[|::|:|?")

/-- The rule `parseBinaryOp`; `parseExpr` is declared in ast.cpp but not defined
there, so it is a parameter. -/
def parseBinaryOp (toks : List Token) (parseExpr : Rule) : Rule := fun tok =>
  compilePrecedence toks (infixSequence tok parseExpr (parseOp toks) parseExpr)

/-- The rule `parsePrefixOp`; `parseExpr` is a parameter as in `parseBinaryOp`. -/
def parsePrefixOp (toks : List Token) (parseExpr : Rule) : Rule := fun tok =>
  compilePrecedence toks (prefixSequence tok (parseOp toks) parseExpr)

end ParserEngine

/-! ## Token lists and analyzers used as concrete inputs -/

namespace Examples

/-- A token outside any block. -/
def tk (s : String) (ty : TokType) (lnk par o1 o2 : Option Nat) : Token :=
  ⟨s, ty, lnk, par, o1, o2, ScopeType.eGlobal⟩

/-- A token inside a block of the given scope kind. -/
def tkIn (sc : ScopeType) (s : String) (ty : TokType) (lnk par o1 o2 : Option Nat) : Token :=
  ⟨s, ty, lnk, par, o1, o2, sc⟩

/-- An analyzer without state that reports `None` everywhere and knows no value. -/
def silentAnalyzer : GenericAnalyzer Unit :=
  ⟨fun _ _ => Action.None, fun _ _ => [], fun _ _ _ => (), fun _ _ _ _ => (), fun _ => false⟩

/-- A forward engine without effect on the analyzer state. -/
def idleForward : ForwardEngine Unit := ⟨fun _ _ => (), fun _ _ _ => ()⟩

/-- The empty run state. -/
def emptyRun : RunState Unit := ⟨(), []⟩

/-- The tokens of `x = y + 1 , z ;` with the AST `,(=(x, +(y, 1)), z)`. -/
def commaTokens : List Token :=
  [tk "x" TokType.eVariable none (some 1) none none,
   tk "=" TokType.eAssignmentOp none (some 5) (some 0) (some 3),
   tk "y" TokType.eVariable none (some 3) none none,
   tk "+" TokType.eArithmeticalOp none (some 1) (some 2) (some 4),
   tk "1" TokType.eNumber none (some 3) none none,
   tk "," TokType.eExtendedOp none none (some 1) (some 6),
   tk "z" TokType.eVariable none (some 5) none none,
   tk ";" TokType.eOther none none none none]

/-- The tokens of `a && b ;` with the AST `&&(a, b)`. -/
def andTokens : List Token :=
  [tk "a" TokType.eVariable none (some 1) none none,
   tk "&&" TokType.eLogicalOp none none (some 0) (some 2),
   tk "b" TokType.eVariable none (some 1) none none,
   tk ";" TokType.eOther none none none none]

/-- An analyzer that reports `None` everywhere and evaluates token 0 to the
value set `vals`. -/
def condAnalyzer (vals : List Int) : GenericAnalyzer Unit :=
  ⟨fun _ _ => Action.None, fun _ t => if t = 0 then vals else [], fun _ _ _ => (),
    fun _ _ _ _ => (), fun _ => false⟩

/-- The tokens of `do { sizeof ( x ) ; } while ( c ) ;`. -/
def doSizeofTokens : List Token :=
  [tk "do" TokType.eKeyword none none none none,
   tkIn ScopeType.eDo "\x7b" TokType.eBracket (some 7) none none none,
   tkIn ScopeType.eDo "sizeof" TokType.eKeyword none (some 3) none none,
   tkIn ScopeType.eDo "(" TokType.eExtendedOp (some 5) none (some 2) (some 4),
   tkIn ScopeType.eDo "x" TokType.eVariable none (some 3) none none,
   tkIn ScopeType.eDo ")" TokType.eExtendedOp (some 3) none none none,
   tkIn ScopeType.eDo ";" TokType.eOther none none none none,
   tkIn ScopeType.eDo "\x7d" TokType.eBracket (some 1) none none none,
   tk "while" TokType.eKeyword none (some 9) none none,
   tk "(" TokType.eExtendedOp (some 11) none (some 8) (some 10),
   tk "c" TokType.eVariable none (some 9) none none,
   tk ")" TokType.eExtendedOp (some 9) none none none,
   tk ";" TokType.eOther none none none none]

/-- The tokens of `do { x = x + 1 ; } while ( c ) ;`. -/
def doWhileTokens : List Token :=
  [tk "do" TokType.eKeyword none none none none,
   tkIn ScopeType.eDo "\x7b" TokType.eBracket (some 8) none none none,
   tkIn ScopeType.eDo "x" TokType.eVariable none (some 3) none none,
   tkIn ScopeType.eDo "=" TokType.eAssignmentOp none none (some 2) (some 5),
   tkIn ScopeType.eDo "x" TokType.eVariable none (some 5) none none,
   tkIn ScopeType.eDo "+" TokType.eArithmeticalOp none (some 3) (some 4) (some 6),
   tkIn ScopeType.eDo "1" TokType.eNumber none (some 5) none none,
   tkIn ScopeType.eDo ";" TokType.eOther none none none none,
   tkIn ScopeType.eDo "\x7d" TokType.eBracket (some 1) none none none,
   tk "while" TokType.eKeyword none (some 10) none none,
   tk "(" TokType.eExtendedOp (some 12) none (some 9) (some 11),
   tk "c" TokType.eVariable none (some 10) none none,
   tk ")" TokType.eExtendedOp (some 10) none none none,
   tk ";" TokType.eOther none none none none]

/-- The tokens of `x = 1 ; if ( x ) { y = 2 ; } z ;`. -/
def ifTokens : List Token :=
  [tk "x" TokType.eVariable none (some 1) none none,
   tk "=" TokType.eAssignmentOp none none (some 0) (some 2),
   tk "1" TokType.eNumber none (some 1) none none,
   tk ";" TokType.eOther none none none none,
   tk "if" TokType.eKeyword none (some 5) none none,
   tk "(" TokType.eExtendedOp (some 7) none (some 4) (some 6),
   tk "x" TokType.eVariable none (some 5) none none,
   tk ")" TokType.eExtendedOp (some 5) none none none,
   tkIn ScopeType.eIf "\x7b" TokType.eBracket (some 13) none none none,
   tkIn ScopeType.eIf "y" TokType.eVariable none (some 10) none none,
   tkIn ScopeType.eIf "=" TokType.eAssignmentOp none none (some 9) (some 11),
   tkIn ScopeType.eIf "2" TokType.eNumber none (some 10) none none,
   tkIn ScopeType.eIf ";" TokType.eOther none none none none,
   tkIn ScopeType.eIf "\x7d" TokType.eBracket (some 8) none none none,
   tk "z" TokType.eVariable none none none none,
   tk ";" TokType.eOther none none none none]

/-- An analyzer for `ifTokens` that reports `Write` on the target `x` of
`x = 1` and on the `;` that ends that statement, `None` elsewhere, and
evaluates the condition `x` to the value set with the single value 1. -/
def writeAtSemicolon : GenericAnalyzer Unit :=
  ⟨fun _ t => if t = 0 ∨ t = 3 then Action.Write else Action.None,
    fun _ t => if t = 6 then [1] else [], fun _ _ _ => (), fun _ _ _ _ => (), fun _ => false⟩

/-- An analyzer for `ifTokens` that reports `Write` on the target `x` of
`x = 1` only and evaluates the condition `x` to the value set with the single
value 1. -/
def writeAtTarget : GenericAnalyzer Unit :=
  ⟨fun _ t => if t = 0 then Action.Write else Action.None,
    fun _ t => if t = 6 then [1] else [], fun _ _ _ => (), fun _ _ _ _ => (), fun _ => false⟩

/-- The tokens of `sizeof ( x ++ ) ;`. -/
def sizeofTokens : List Token :=
  [tk "sizeof" TokType.eKeyword none (some 1) none none,
   tk "(" TokType.eExtendedOp (some 4) none (some 0) (some 3),
   tk "x" TokType.eVariable none (some 3) none none,
   tk "++" TokType.eIncDecOp none (some 1) (some 2) none,
   tk ")" TokType.eExtendedOp (some 1) none none none,
   tk ";" TokType.eOther none none none none]

/-- The tokens of `1 + x` with the AST `+(1, x)`. -/
def plusTokens : List Token :=
  [tk "1" TokType.eNumber none (some 1) none none,
   tk "+" TokType.eArithmeticalOp none none (some 0) (some 2),
   tk "x" TokType.eName none (some 1) none none]

/-- An analyzer without state given by a table of actions and a table of
value sets; `lowerToInconclusive()` is false. -/
def tableAnalyzer (actions : Nat → Action) (values : Nat → List Int) : GenericAnalyzer Unit :=
  ⟨fun _ t => actions t, fun _ t => values t, fun _ _ _ => (), fun _ _ _ _ => (), fun _ => false⟩

/-- The tokens of `a || b ;` with the AST `||(a, b)`. -/
def orTokens : List Token :=
  [tk "a" TokType.eVariable none (some 1) none none,
   tk "||" TokType.eLogicalOp none none (some 0) (some 2),
   tk "b" TokType.eVariable none (some 1) none none,
   tk ";" TokType.eOther none none none none]

/-- The tokens of `c ? a : b ;` with the AST `?(c, :(a, b))`. -/
def ternaryTokens : List Token :=
  [tk "c" TokType.eVariable none (some 1) none none,
   tk "?" TokType.eExtendedOp none none (some 0) (some 3),
   tk "a" TokType.eVariable none (some 3) none none,
   tk ":" TokType.eExtendedOp none (some 1) (some 2) (some 4),
   tk "b" TokType.eVariable none (some 3) none none,
   tk ";" TokType.eOther none none none none]

/-- The tokens of `x = a || b ;` with the AST `=(x, ||(a, b))`. -/
def assignOrTokens : List Token :=
  [tk "x" TokType.eVariable none (some 1) none none,
   tk "=" TokType.eAssignmentOp none none (some 0) (some 3),
   tk "a" TokType.eVariable none (some 3) none none,
   tk "||" TokType.eLogicalOp none (some 1) (some 2) (some 4),
   tk "b" TokType.eVariable none (some 3) none none,
   tk ";" TokType.eOther none none none none]

/-- The tokens of `x ; { y ; } z ;`, with a block that has no header. -/
def blockTokens : List Token :=
  [tk "x" TokType.eVariable none none none none,
   tk ";" TokType.eOther none none none none,
   tkIn ScopeType.eUnconditional "\x7b" TokType.eBracket (some 5) none none none,
   tkIn ScopeType.eUnconditional "y" TokType.eVariable none none none none,
   tkIn ScopeType.eUnconditional ";" TokType.eOther none none none none,
   tkIn ScopeType.eUnconditional "\x7d" TokType.eBracket (some 2) none none none,
   tk "z" TokType.eVariable none none none none,
   tk ";" TokType.eOther none none none none]

/-- The tokens of `do { y ; x ++ ; } while ( c ) ;`. -/
def doScanTokens : List Token :=
  [tk "do" TokType.eKeyword none none none none,
   tkIn ScopeType.eDo "\x7b" TokType.eBracket (some 7) none none none,
   tkIn ScopeType.eDo "y" TokType.eVariable none none none none,
   tkIn ScopeType.eDo ";" TokType.eOther none none none none,
   tkIn ScopeType.eDo "x" TokType.eVariable none (some 5) none none,
   tkIn ScopeType.eDo "++" TokType.eIncDecOp none none (some 4) none,
   tkIn ScopeType.eDo ";" TokType.eOther none none none none,
   tkIn ScopeType.eDo "\x7d" TokType.eBracket (some 1) none none none,
   tk "while" TokType.eKeyword none (some 9) none none,
   tk "(" TokType.eExtendedOp (some 11) none (some 8) (some 10),
   tk "c" TokType.eVariable none (some 9) none none,
   tk ")" TokType.eExtendedOp (some 9) none none none,
   tk ";" TokType.eOther none none none none]

/-- The tokens of `- x` with the unary minus as a prefix operator. -/
def minusTokens : List Token :=
  [tk "-" TokType.eArithmeticalOp none none (some 1) none,
   tk "x" TokType.eName none (some 0) none none]

/-- The tokens of `^ x`. -/
def caretTokens : List Token :=
  [tk "^" TokType.eBitOp none none none none,
   tk "x" TokType.eName none none none none]

/-- The one-token list `throw`. -/
def throwTokens : List Token :=
  [tk "throw" TokType.eKeyword none none none none]

end Examples

/-! ## Properties -/

open ReverseTraversal Matcher Examples

/-! ### Compiled patterns -/

theorem tokenMatch_return (toks : List Token) (t : Option Nat) :
    tokenMatch toks t "return|break|continue" =
      matchWords toks t [["return", "break", "continue"]] := by
  have h : parsePattern "return|break|continue" = [["return", "break", "continue"]] := by decide
  unfold tokenMatch; rw [h]

theorem tokenMatch_close (toks : List Token) (t : Option Nat) :
    tokenMatch toks t ")|>" =
      matchWords toks t [[")", ">"]] := by
  have h : parsePattern ")|>" = [[")", ">"]] := by decide
  unfold tokenMatch; rw [h]

theorem tokenMatch_colon (toks : List Token) (t : Option Nat) :
    tokenMatch toks t ":" =
      matchWords toks t [[":"]] := by
  have h : parsePattern ":" = [[":"]] := by decide
  unfold tokenMatch; rw [h]

theorem tokenMatch_oror (toks : List Token) (t : Option Nat) :
    tokenMatch toks t "%oror%|&&|?" =
      matchWords toks t [["%oror%", "&&", "?"]] := by
  have h : parsePattern "%oror%|&&|?" = [["%oror%", "&&", "?"]] := by decide
  unfold tokenMatch; rw [h]

theorem tokenMatch_sizeof (toks : List Token) (t : Option Nat) :
    tokenMatch toks t "sizeof|decltype (" =
      matchWords toks t [["sizeof", "decltype"], ["("]] := by
  have h : parsePattern "sizeof|decltype (" = [["sizeof", "decltype"], ["("]] := by decide
  unfold tokenMatch; rw [h]

theorem tokenMatch_for (toks : List Token) (t : Option Nat) :
    tokenMatch toks t "for|while (" =
      matchWords toks t [["for", "while"], ["("]] := by
  have h : parsePattern "for|while (" = [["for", "while"], ["("]] := by decide
  unfold tokenMatch; rw [h]

theorem simpleMatch_do (toks : List Token) (t : Option Nat) :
    simpleMatch toks t "do" = matchLiteralWords toks t ["do"] := by
  have h : (splitOnChar ' ' "do".data).map String.mk = ["do"] := by decide
  unfold simpleMatch; rw [h]

theorem simpleMatch_close (toks : List Token) (t : Option Nat) :
    simpleMatch toks t ")" = matchLiteralWords toks t [")"] := by
  have h : (splitOnChar ' ' ")".data).map String.mk = [")"] := by decide
  unfold simpleMatch; rw [h]

theorem simpleMatch_lt (toks : List Token) (t : Option Nat) :
    simpleMatch toks t "<" = matchLiteralWords toks t ["<"] := by
  have h : (splitOnChar ' ' "<".data).map String.mk = ["<"] := by decide
  unfold simpleMatch; rw [h]

theorem simpleMatch_else (toks : List Token) (t : Option Nat) :
    simpleMatch toks t "else \x7b" = matchLiteralWords toks t ["else", "\x7b"] := by
  have h : (splitOnChar ' ' "else \x7b".data).map String.mk = ["else", "\x7b"] := by decide
  unfold simpleMatch; rw [h]

theorem simpleMatch_close_else (toks : List Token) (t : Option Nat) :
    simpleMatch toks t "\x7d else \x7b" = matchLiteralWords toks t ["\x7d", "else", "\x7b"] := by
  have h : (splitOnChar ' ' "\x7d else \x7b".data).map String.mk = ["\x7d", "else", "\x7b"] := by decide
  unfold simpleMatch; rw [h]

theorem simpleMatch_paren_brace (toks : List Token) (t : Option Nat) :
    simpleMatch toks t ") \x7b" = matchLiteralWords toks t [")", "\x7b"] := by
  have h : (splitOnChar ' ' ") \x7b".data).map String.mk = [")", "\x7b"] := by decide
  unfold simpleMatch; rw [h]

/-! ### Action algebra, condition evaluation, default observation -/

/-- The state and the log that `update` leaves: `analyze` is always logged, the
analyzer's `update` exactly when the action is a read. -/
theorem update_snd {σ : Type} (an : GenericAnalyzer σ) (s : RunState σ) (tok : Nat) :
    (update an s tok).2 =
      ⟨if (an.analyze s.st tok).isRead then an.update s.st tok (an.analyze s.st tok) else s.st,
       s.log ++ Event.analyze tok ::
        (if (an.analyze s.st tok).isRead then [Event.update tok (an.analyze s.st tok)] else [])⟩ := by
  unfold update callAnalyze callUpdate
  split_ifs <;> simp_all
  all_goals split_ifs <;> rfl

/-- C6: the default observation step `ReverseTraversal::update(tok)` returns false
exactly when the analyzed action is Modified, or is Inconclusive while
`lowerToInconclusive()` is false; it always logs `analyze(tok)` and calls the
analyzer's `update(tok, action)` exactly when the action is a Read, whether or
not the step then aborts. -/
theorem update_abort_iff_and_calls {σ : Type} (an : GenericAnalyzer σ) (s : RunState σ) (tok : Nat) :
    ((update an s tok).1 = false ↔
      ((an.analyze s.st tok).isModified = true ∨
        ((an.analyze s.st tok).isInconclusive = true ∧
          an.lowerToInconclusive (update an s tok).2.st = false))) ∧
    (update an s tok).2.log = s.log ++ Event.analyze tok ::
      (if (an.analyze s.st tok).isRead then [Event.update tok (an.analyze s.st tok)] else []) ∧
    (update an s tok).2.st =
      (if (an.analyze s.st tok).isRead then an.update s.st tok (an.analyze s.st tok) else s.st) := by
  unfold update callAnalyze callUpdate
  cases hr : (an.analyze s.st tok).isRead <;> cases hm : (an.analyze s.st tok).isModified <;>
    cases hi : (an.analyze s.st tok).isInconclusive <;> simp [hr, hm, hi]
  all_goals first
    | (cases hl : an.lowerToInconclusive s.st
       all_goals simp [hl])
    | (cases hl2 : an.lowerToInconclusive (an.update s.st tok (an.analyze s.st tok))
       all_goals simp [hl2])

/-- C7: the Action combine operator is associative and commutative over all
flag sets of Read, Write and Inconclusive, and None is its identity on both
sides. -/
theorem combine_assoc_comm_identity :
    (∀ a b c : Action, (a.combine b).combine c = a.combine (b.combine c)) ∧
    (∀ a b : Action, a.combine b = b.combine a) ∧
    (∀ x : Action, x.combine Action.None = x) ∧
    (∀ x : Action, Action.None.combine x = x) := by
  refine ⟨?_, ?_, ?_, ?_⟩
  · intro a b c; simp [Action.combine, Bool.or_assoc]
  · intro a b; simp [Action.combine, Bool.or_comm]
  · intro x; cases x; simp [Action.combine, Action.None]
  · intro x; cases x; simp [Action.combine, Action.None]

/-- C8: `evalCond(tok)` is the pair (mayBeTrue, mayBeFalse): the first holds
exactly when `evaluate(tok)` contains a nonzero value, the second exactly when
it contains zero; the pair is (false, false) exactly when `evaluate(tok)` is
empty. -/
theorem evalCond_spec {σ : Type} (an : GenericAnalyzer σ) (st : σ) (tok : Nat) :
    ((evalCond an st tok).1 = true ↔ ∃ x ∈ an.evaluate st tok, x ≠ 0) ∧
    ((evalCond an st tok).2 = true ↔ (0 : Int) ∈ an.evaluate st tok) ∧
    (evalCond an st tok = (false, false) ↔ an.evaluate st tok = []) := by
  unfold evalCond
  refine ⟨by simp, by simp, ?_⟩
  constructor
  · intro h
    simp only [Prod.mk.injEq] at h
    cases hl : an.evaluate st tok with
    | nil => rfl
    | cons x xs =>
      rw [hl] at h
      by_cases hx : x = 0 <;> simp [hx] at h
  · intro h; simp [h]

/-! ### Matcher -/

/-- The scan of `TestMatcher::astMatch` with a pattern matcher returns the first
position that matches. -/
theorem scanLoop_pattern (toks : List Token) (p : String) :
    ∀ n t, t + n = toks.length →
      scanLoop toks (pattern toks p) (n + 1) (if n = 0 then none else some t) =
        some ⟨(List.range' t n).find? (fun i => tokenMatch toks (some i) p), []⟩ := by
  intro n
  induction n with
  | zero => intro t _; simp [scanLoop]
  | succ n ih =>
    intro t ht
    have hnext : next toks t = if n = 0 then none else some (t + 1) := by
      unfold next
      by_cases hn : n = 0
      · subst hn; simp; omega
      · simp [hn]; omega
    by_cases hm : tokenMatch toks (some t) p = true
    · simp [scanLoop, astMatch, pattern, hm, List.range', List.find?]
    · simp only [Bool.not_eq_true] at hm
      have := ih (t + 1) (by omega)
      simp [scanLoop, astMatch, pattern, hm, List.range', List.find?, hnext, this]

/-- C9: `astMatch(t, pattern(p))` has `tok` equal to `t` when `Token::Match(t, p)`
holds and null otherwise, with an empty `tokens` map in both cases; the scan
of a token list returns the first position matching `p`, or the empty result;
on `1 + x` the patterns `+`, `%name%` and `-` give the `+`, the `x` and
nothing, as in `testPattern`. -/
theorem astMatch_pattern_spec (toks : List Token) (p : String) (t : Nat) :
    astMatch (some t) (pattern toks p) =
        some ⟨if tokenMatch toks (some t) p then some t else none, []⟩ ∧
    testAstMatch toks (pattern toks p) =
        some ⟨(List.range toks.length).find? (fun i => tokenMatch toks (some i) p), []⟩ ∧
    testAstMatch plusTokens (pattern plusTokens "+") = some ⟨some 1, []⟩ ∧
    testAstMatch plusTokens (pattern plusTokens "%name%") = some ⟨some 2, []⟩ ∧
    testAstMatch plusTokens (pattern plusTokens "-") = some ⟨none, []⟩ := by
  refine ⟨by simp [astMatch, pattern], ?_, by decide, by decide, by decide⟩
  have h := scanLoop_pattern toks p toks.length 0 (by simp)
  unfold testAstMatch
  rw [List.range_eq_range']
  by_cases hl : toks.length = 0
  · simp only [hl] at h ⊢; exact h
  · simp only [hl] at h ⊢; exact h

/-- C10: the composed matcher `m(binary(a, b))` returns a token `r` exactly when
`m` returns `r`, `r` has at least one AST operand, `a` matches the first
operand of `r` and `b` the second (each on the context its predecessor
left); whatever it returns is null or the result of `m`; it returns whenever
`m`, `a` and `b` do; on `1 + x`, `+` with operands (`%num%`, `%name%`) gives
the `+` token and with (`%name%`, `%name%`) nothing, as in `testBinary`. -/
theorem compose_binary_spec (toks : List Token) (m a b : MatchFn) (ctx : Context)
    (t : Option Nat) :
    (∀ r c, compose m (binary toks a b) ctx t = some (some r, c) ↔
      ∃ c1 c2 x y, m ctx t = some (some r, c1) ∧
        ((astOperand1 toks r).isSome ∨ (astOperand2 toks r).isSome) ∧
        a c1 (astOperand1 toks r) = some (some x, c2) ∧
        b c2 (astOperand2 toks r) = some (some y, c)) ∧
    (∀ res c, compose m (binary toks a b) ctx t = some (res, c) →
      res = none ∨ ∃ c1, m ctx t = some (res, c1)) ∧
    ((m ctx t).isSome → (∀ c x, (a c x).isSome) → (∀ c x, (b c x).isSome) →
      (compose m (binary toks a b) ctx t).isSome) ∧
    testAstMatch plusTokens (compose (pattern plusTokens "+")
        (binary plusTokens (pattern plusTokens "%num%") (pattern plusTokens "%name%"))) =
      some ⟨some 1, []⟩ ∧
    testAstMatch plusTokens (compose (pattern plusTokens "+")
        (binary plusTokens (pattern plusTokens "%name%") (pattern plusTokens "%name%"))) =
      some ⟨none, []⟩ := by
  refine ⟨?_, ?_, ?_, by decide, by decide⟩
  · intro r c
    constructor
    · intro h
      unfold compose SubMatcher binary at h
      cases hm : m ctx t with
      | none => simp [hm] at h
      | some pr =>
        obtain ⟨res, c1⟩ := pr
        cases res with
        | none => simp [hm] at h
        | some r1 =>
          simp only [hm] at h
          by_cases hops : ((astOperand1 toks r1).isNone && (astOperand2 toks r1).isNone) = true
          · simp [hops] at h
          · simp only [hops] at h
            have hops2 : (astOperand1 toks r1).isSome ∨ (astOperand2 toks r1).isSome := by
              cases h1 : astOperand1 toks r1 <;> cases h2 : astOperand2 toks r1 <;> simp_all
            cases ha : a c1 (astOperand1 toks r1) with
            | none => simp [ha] at h
            | some pa =>
              obtain ⟨ra, c2⟩ := pa
              cases ra with
              | none => simp [ha] at h
              | some x =>
                cases hb : b c2 (astOperand2 toks r1) with
                | none => simp [ha, hb] at h
                | some pb =>
                  obtain ⟨rb, c3⟩ := pb
                  cases rb with
                  | none => simp [ha, hb] at h
                  | some y =>
                    simp [ha, hb] at h
                    obtain ⟨h1, h2⟩ := h
                    subst h1; subst h2
                    exact ⟨c1, c2, x, y, rfl, hops2, ha, hb⟩
    · rintro ⟨c1, c2, x, y, hm, hops, ha, hb⟩
      have hn : ((astOperand1 toks r).isNone && (astOperand2 toks r).isNone) = false := by
        cases h1 : astOperand1 toks r <;> cases h2 : astOperand2 toks r <;> simp_all
      simp [compose, SubMatcher, binary, hm, hn, ha, hb]
  · intro res c
    unfold compose SubMatcher binary
    cases hm : m ctx t with
    | none => simp
    | some pr =>
      obtain ⟨res1, c1⟩ := pr
      cases res1 with
      | none => simp; intro h _; exact Or.inl h.symm
      | some r1 =>
        simp only []
        split
        · simp
        · rename_i h; intro h2; simp at h2; exact Or.inl h2.1.symm
        · rename_i h; intro h2; simp at h2; exact Or.inr ⟨c1, by simp [h2.1]⟩
  · intro hm ha hb
    unfold compose SubMatcher binary
    cases hmv : m ctx t with
    | none => simp [hmv] at hm
    | some pr =>
      obtain ⟨res1, c1⟩ := pr
      cases res1 with
      | none => simp
      | some r1 =>
        simp only []
        by_cases hops : ((astOperand1 toks r1).isNone && (astOperand2 toks r1).isNone) = true
        · simp [hops]
        · simp only [hops]
          have h1 := ha c1 (astOperand1 toks r1)
          cases hav : a c1 (astOperand1 toks r1) with
          | none => simp [hav] at h1
          | some pa =>
            obtain ⟨ra, c2⟩ := pa
            cases ra with
            | none => simp
            | some x =>
              have h2 := hb c2 (astOperand2 toks r1)
              cases hbv : b c2 (astOperand2 toks r1) with
              | none => simp [hbv] at h2
              | some pb =>
                obtain ⟨rb, c3⟩ := pb
                cases rb <;> simp [hbv]

/-! ### Traversal: termination -/

/-- On `x = y + 1 , z ;` one pass with the cursor on `+` ends with the cursor
variable on `1`, the token after `+`. -/
theorem comma_body3 (k : Nat) (s : RunState Unit) :
    loopBody silentAnalyzer idleForward commaTokens 7 (k + 3) 3 s =
      some (Step.again (some 4) ⟨(), s.log ++ [Event.analyze 0, Event.forward (some 6)]⟩) := by
  simp [loopBody, assignExpr, assignStep, assignTopLoop, analyzeRecursive, visitAnalyze,
    callAnalyze, callForward, tokenMatch_return, matchWords, matchAlt,
    astParent, astOperand1, astOperand2, astIsRHS, isAssignmentOp, Token.isAssignmentOp,
    str, scopeType, tokenAt, commaTokens, tk, silentAnalyzer, idleForward, previous,
    Action.combine, Action.None, Action.isRead, Action.isModified, Action.isInconclusive]

/-- With any bound on the inner walks, a pass with the cursor on `+` runs out
of that bound or ends with the cursor variable on `1`. -/
theorem comma_body3_cases (k : Nat) (s : RunState Unit) :
    loopBody silentAnalyzer idleForward commaTokens 7 k 3 s = none ∨
      ∃ s1, loopBody silentAnalyzer idleForward commaTokens 7 k 3 s = some (Step.again (some 4) s1) := by
  rcases k with _ | _ | _ | k
  · left
    simp [loopBody, assignExpr, tokenMatch_return, matchWords, matchAlt, str, scopeType, tokenAt,
      commaTokens, tk]
  · left
    simp [loopBody, assignExpr, assignStep, assignTopLoop, analyzeRecursive, visitAnalyze,
      callAnalyze, callForward, tokenMatch_return, matchWords, matchAlt,
      astParent, astOperand1, astOperand2, astIsRHS, isAssignmentOp, Token.isAssignmentOp,
      str, scopeType, tokenAt, commaTokens, tk, silentAnalyzer, idleForward, previous,
      Action.combine, Action.None, Action.isRead, Action.isModified, Action.isInconclusive]
  · left
    simp [loopBody, assignExpr, assignStep, assignTopLoop, analyzeRecursive, visitAnalyze,
      callAnalyze, callForward, tokenMatch_return, matchWords, matchAlt,
      astParent, astOperand1, astOperand2, astIsRHS, isAssignmentOp, Token.isAssignmentOp,
      str, scopeType, tokenAt, commaTokens, tk, silentAnalyzer, idleForward, previous,
      Action.combine, Action.None, Action.isRead, Action.isModified, Action.isInconclusive]
  · right
    exact ⟨_, comma_body3 k s⟩

/-- Once the cursor is on `+` the loop never ends. -/
theorem comma_stuck3 (k : Nat) : ∀ (n : Nat) (s : RunState Unit),
    traverseLoop silentAnalyzer idleForward commaTokens 7 k n (some 3) s = none := by
  intro n
  induction n with
  | zero => intro s; rfl
  | succ n ih =>
    intro s
    rcases comma_body3_cases k s with h | ⟨s1, h⟩
    · simp [traverseLoop, h]
    · simp [traverseLoop, h, previous, ih]

/-- A pass with the cursor on `1` runs out of the inner bound or leaves the
cursor variable on `1`. -/
theorem comma_body4_cases (k : Nat) (s : RunState Unit) :
    loopBody silentAnalyzer idleForward commaTokens 7 k 4 s = none ∨
      ∃ s1, loopBody silentAnalyzer idleForward commaTokens 7 k 4 s = some (Step.again (some 4) s1) := by
  rcases k with _ | _ | _ | k
  · left
    simp [loopBody, assignExpr, tokenMatch_return, matchWords, matchAlt, str, scopeType, tokenAt,
      commaTokens, tk]
  · left
    simp [loopBody, assignExpr, assignStep, assignTopLoop, analyzeRecursive, visitAnalyze,
      callAnalyze, callForward, tokenMatch_return, matchWords, matchAlt,
      astParent, astOperand1, astOperand2, astIsRHS, isAssignmentOp, Token.isAssignmentOp,
      str, scopeType, tokenAt, commaTokens, tk, silentAnalyzer, idleForward, previous,
      Action.combine, Action.None, Action.isRead, Action.isModified, Action.isInconclusive]
  · left
    simp [loopBody, assignExpr, assignStep, assignTopLoop, analyzeRecursive, visitAnalyze,
      callAnalyze, callForward, tokenMatch_return, matchWords, matchAlt,
      astParent, astOperand1, astOperand2, astIsRHS, isAssignmentOp, Token.isAssignmentOp,
      str, scopeType, tokenAt, commaTokens, tk, silentAnalyzer, idleForward, previous,
      Action.combine, Action.None, Action.isRead, Action.isModified, Action.isInconclusive]
  · right
    refine ⟨⟨(), s.log ++ [Event.analyze 0, Event.forward (some 6)]⟩, ?_⟩
    simp [loopBody, assignExpr, assignStep, assignTopLoop, analyzeRecursive, visitAnalyze,
      callAnalyze, callForward, tokenMatch_return, matchWords, matchAlt,
      astParent, astOperand1, astOperand2, astIsRHS, isAssignmentOp, Token.isAssignmentOp,
      str, scopeType, tokenAt, commaTokens, tk, silentAnalyzer, idleForward, previous,
      Action.combine, Action.None, Action.isRead, Action.isModified, Action.isInconclusive]

/-- A pass with the cursor on `,` or on `z` runs out of the inner bound or is a
default observation that lets the walk go on. -/
theorem comma_body56_cases (k : Nat) (s : RunState Unit) (t : Nat) (ht : t = 5 ∨ t = 6) :
    loopBody silentAnalyzer idleForward commaTokens 7 k t s = none ∨
      ∃ s1, loopBody silentAnalyzer idleForward commaTokens 7 k t s = some (Step.again (some t) s1) := by
  rcases ht with rfl | rfl <;> rcases k with _ | _ | k <;>
  simp [loopBody, assignExpr, isUnevaluated, isDeadCode, isDeadCodeLoop, update,
      callAnalyze, callUpdate, tokenMatch_return, tokenMatch_close, tokenMatch_colon, tokenMatch_oror,
      matchWords, matchAlt, link,
      astParent, astOperand1, astOperand2, astIsRHS, isAssignmentOp, Token.isAssignmentOp,
      str, scopeType, tokenAt, commaTokens, tk, silentAnalyzer, idleForward, previous,
      Action.combine, Action.None, Action.isRead, Action.isModified, Action.isInconclusive]

/-- C1, evaluated at `x = y + 1 , z ;` (AST `,(=(x, +(y, 1)), z)`), started at
`;` with an analyzer that reports None everywhere: no bound on the number of
passes lets `traverse` finish; a pass with the cursor on `+` (position 3)
climbs from `=` to its parent `,`, sets the cursor variable to
`assignTop->previous()`, which is `1` (position 4), and the loop increment
puts the cursor back on position 3. -/
theorem traverse_comma_never_finishes :
    (∀ k n, traverse silentAnalyzer idleForward commaTokens k n 7 emptyRun = none) ∧
    (∀ k s, loopBody silentAnalyzer idleForward commaTokens 7 (k + 3) 3 s =
      some (Step.again (some 4) ⟨(), s.log ++ [Event.analyze 0, Event.forward (some 6)]⟩)) ∧
    previous 4 = some 3 := by
  refine ⟨?_, comma_body3, by decide⟩
  intro k n
  have h4 : ∀ n s, traverseLoop silentAnalyzer idleForward commaTokens 7 k n (some 4) s = none := by
    intro n s
    cases n with
    | zero => rfl
    | succ n =>
      rcases comma_body4_cases k s with h | ⟨s1, h⟩
      · simp [traverseLoop, h]
      · simp [traverseLoop, h, previous, comma_stuck3]
  have h5 : ∀ n s, traverseLoop silentAnalyzer idleForward commaTokens 7 k n (some 5) s = none := by
    intro n s
    cases n with
    | zero => rfl
    | succ n =>
      rcases comma_body56_cases k s 5 (Or.inl rfl) with h | ⟨s1, h⟩
      · simp [traverseLoop, h]
      · simp [traverseLoop, h, previous, h4]
  cases n with
  | zero => rfl
  | succ n =>
    rcases comma_body56_cases k emptyRun 6 (Or.inr rfl) with h | ⟨s1, h⟩
    · simp [ReverseTraversal.traverse, previous, traverseLoop, h]
    · simp [ReverseTraversal.traverse, previous, traverseLoop, h, h5]

/-! ### Traversal: dead code and unevaluated contexts -/

/-- C2, evaluated at `a && b ;` started at `;`: when `evaluate(a)` is the set
with the single value 0, `isDeadCode(b)` returns null and the traversal calls
`analyze` on `b` (then on `&&` and `a`); when `evaluate(a)` is the set with
the single value 1, `isDeadCode(b)` returns the `&&` token and `b` is
skipped. -/
theorem isDeadCode_and_always_false_returns_null (k n : Nat) :
    isDeadCode (condAnalyzer [0]) andTokens (k + 2) emptyRun 2 = some (none, emptyRun) ∧
    ReverseTraversal.traverse (condAnalyzer [0]) idleForward andTokens (k + 2) (n + 3) 3 emptyRun =
      some (Outcome.finished ⟨(), [Event.analyze 2, Event.analyze 1, Event.analyze 0]⟩) ∧
    isDeadCode (condAnalyzer [1]) andTokens (k + 2) emptyRun 2 = some (some 1, emptyRun) ∧
    ReverseTraversal.traverse (condAnalyzer [1]) idleForward andTokens (k + 2) (n + 3) 3 emptyRun =
      some (Outcome.finished ⟨(), [Event.analyze 0]⟩) := by
  refine ⟨?_, ?_, ?_, ?_⟩ <;>
  simp [ReverseTraversal.traverse, traverseLoop, loopBody, assignExpr, isUnevaluated, isDeadCode,
      isDeadCodeLoop, update, evalCond, deadCodeContinue,
      callAnalyze, callUpdate, tokenMatch_return, tokenMatch_close, tokenMatch_colon, tokenMatch_oror,
      matchWords, matchAlt, link,
      astParent, astOperand1, astOperand2, astIsRHS, isAssignmentOp, Token.isAssignmentOp,
      str, scopeType, tokenAt, andTokens, tk, condAnalyzer, idleForward, emptyRun, previous,
      Action.combine, Action.None, Action.isRead, Action.isModified, Action.isInconclusive]

/-- C3, as stated, fails on `do { sizeof ( x ) ; } while ( c ) ;` started at the
`;` right after the `)` of the `sizeof`: the cursor skips from `)` to before
`sizeof`, lands on the `{` of the do body, and the flat scan of the loop body
calls `analyze` on `sizeof`, `(`, `x` and `)`. -/
theorem sizeof_in_do_body_is_analyzed :
    ReverseTraversal.traverse silentAnalyzer idleForward doSizeofTokens 2 3 6 emptyRun =
      some (Outcome.finished ⟨(), [Event.analyze 1, Event.analyze 2, Event.analyze 3,
        Event.analyze 4, Event.analyze 5, Event.analyze 6, Event.analyze 0]⟩) ∧
    str doSizeofTokens 4 = "x" ∧ str doSizeofTokens 2 = "sizeof" ∧ str doSizeofTokens 5 = ")" ∧
    astParent doSizeofTokens 5 = none := by
  decide

/-- A position whose token has a text lies inside the list. -/
theorem lt_length_of_str_ne {toks : List Token} {i : Nat} (h : str toks i ≠ "") :
    i < toks.length := by
  by_contra hlt
  apply h
  have hd : toks.getD i default = default := List.getD_eq_default _ _ (by omega)
  show (toks.getD i default).str = ""
  rw [hd]
  rfl

/-- The token before a token of the list is followed by it. -/
theorem next_of_previous {toks : List Token} {l q : Nat} (hq : previous l = some q)
    (hl : str toks l ≠ "") : next toks q = some l := by
  have hlen := lt_length_of_str_ne hl
  unfold previous at hq
  unfold next
  split at hq
  · simp at hq
  · simp at hq
    have : q + 1 = l := by omega
    simp [this, hlen]

/-- C3 (amended): in any token list holding `sizeof ( E )` or `decltype ( E )`
whose closing `)` has no AST parent, a traversal started at the token after
that `)` does this when its cursor is on `)`: `isUnevaluated` returns the
`sizeof`/`decltype` token before the matching `(`, the pass makes no call on
the analyzer, and the walk goes on from the token before `sizeof`/`decltype`;
when nothing precedes the `sizeof`/`decltype` the traversal ends without any
call. -/
theorem unevaluated_step_skips_operand {σ : Type} (an : GenericAnalyzer σ) (fw : ForwardEngine σ)
    (toks : List Token) (k n r l q : Nat) (s : RunState σ)
    (hk : 0 < k)
    (hr : str toks r = ")") (hlink : link toks r = some l) (hl : str toks l = "(")
    (hq : previous l = some q) (hkw : str toks q = "sizeof" ∨ str toks q = "decltype")
    (hpar : astParent toks r = none) :
    isUnevaluated toks r = some q ∧
    loopBody an fw toks (r + 1) k r s = some (Step.again (some q) s) ∧
    traverseLoop an fw toks (r + 1) k (n + 1) (some r) s =
      traverseLoop an fw toks (r + 1) k n (previous q) s ∧
    (q = 0 → ReverseTraversal.traverse an fw toks k (n + 1) (r + 1) s = some (Outcome.finished s)) := by
  have hnext : next toks q = some l := next_of_previous hq (by simp [hl])
  have hr1 : (tokenAt toks r).str = ")" := hr
  have hl1 : (tokenAt toks l).str = "(" := hl
  have hun : isUnevaluated toks r = some q := by
    rcases hkw with h | h <;>
    · have h1 : (tokenAt toks q).str = _ := h
      simp [isUnevaluated, tokenMatch_close, tokenMatch_sizeof, matchWords, matchAlt, hlink, hq,
        hnext, hr1, hl1, h1]
  obtain ⟨k, rfl⟩ : ∃ k', k = k' + 1 := ⟨k - 1, by omega⟩
  have hbody : loopBody an fw toks (r + 1) (k + 1) r s = some (Step.again (some q) s) := by
    simp [loopBody, assignExpr, hpar, hun, hr, hr1, tokenMatch_return, matchWords, matchAlt]
  refine ⟨hun, hbody, ?_, ?_⟩
  · simp [traverseLoop, hbody]
  · intro hq0
    subst hq0
    simp [ReverseTraversal.traverse, previous, traverseLoop, hbody]

/-- C3 (amended), at `sizeof ( x ++ ) ;` started at `;`: the traversal ends
without a call on the analyzer. -/
theorem unevaluated_step_skips_operand_witness :
    str sizeofTokens 4 = ")" ∧ link sizeofTokens 4 = some 1 ∧ str sizeofTokens 0 = "sizeof" ∧
    isUnevaluated sizeofTokens 4 = some 0 ∧
    ReverseTraversal.traverse silentAnalyzer idleForward sizeofTokens 1 1 5 emptyRun =
      some (Outcome.finished emptyRun) :=
  have h := unevaluated_step_skips_operand silentAnalyzer idleForward sizeofTokens 1 0 4 1 0
    emptyRun (by decide) (by decide) (by decide) (by decide) (by decide) (Or.inl (by decide))
    (by decide)
  ⟨by decide, by decide, by decide, h.1, h.2.2.2 rfl⟩

/-! ### Traversal: blocks -/

/-- The block that ends a `do` body has no controlling condition. -/
theorem getCondTokFromEnd_do {toks : List Token} {e b d : Nat} (k : Nat)
    (he : str toks e = "\x7d") (hlink : link toks e = some b) (hb : str toks b = "\x7b")
    (hd : previous b = some d) (hdo : str toks d = "do") :
    getCondTokFromEnd toks (k + 1) e = some none := by
  have hnext : next toks d = some b := next_of_previous hd (by simp [hb])
  have hdlen : d < toks.length := lt_length_of_str_ne (by simp [hdo])
  have hm2 : simpleMatch toks (tokAtMinus2 b) "\x7d else \x7b" = false := by
    rw [simpleMatch_close_else]
    unfold tokAtMinus2
    rw [hd]
    cases hc : previous d with
    | none => simp [hc, matchLiteralWords]
    | some c =>
      have hcd : next toks c = some d := by
        unfold previous at hc
        unfold next
        split at hc
        · simp at hc
        · simp at hc
          have : c + 1 = d := by omega
          simp [this, hdlen]
      simp [hc, matchLiteralWords, hcd, hdo]
  simp [getCondTokFromEnd, he, hlink, hb, hd, simpleMatch_close, matchLiteralWords, hdo, hm2]

/-- C4: for every `do { B } while ( C ) ;`, a traversal started after the `}`
of the do body whose cursor reaches that `}` stops there without any further
call (no analyze, update, assume or forward), so nothing before the `do` is
touched; this holds whether or not a token of `B` is modified. -/
theorem do_body_end_stops {σ : Type} (an : GenericAnalyzer σ) (fw : ForwardEngine σ)
    (toks : List Token) (start k n e b d : Nat) (s : RunState σ)
    (hk : 0 < k)
    (he : str toks e = "\x7d") (hlink : link toks e = some b) (hb : str toks b = "\x7b")
    (hd : previous b = some d) (hdo : str toks d = "do")
    (hpar : astParent toks e = none) (hstart : e < start) :
    loopBody an fw toks start k e s = some (Step.leave s) ∧
    traverseLoop an fw toks start k (n + 1) (some e) s = some (Outcome.finished s) := by
  obtain ⟨k, rfl⟩ : ∃ k', k = k' + 1 := ⟨k - 1, by omega⟩
  have he1 : (tokenAt toks e).str = "\x7d" := he
  have hne : e ≠ start := by omega
  have hbody : loopBody an fw toks start (k + 1) e s = some (Step.leave s) := by
    simp [loopBody, assignExpr, hpar, he, he1, hne, tokenMatch_return, matchWords, matchAlt,
      blockEndStep, getCondTokFromEnd_do k he hlink hb hd hdo]
  exact ⟨hbody, by simp [traverseLoop, hbody]⟩

/-- C4, at `do { x = x + 1 ; } while ( c ) ;` started at the last `;`: with the
cursor on the `}` of the body the traversal stops and the run state is left
as it is. -/
theorem do_body_end_stops_witness :
    str doWhileTokens 8 = "\x7d" ∧ link doWhileTokens 8 = some 1 ∧ str doWhileTokens 0 = "do" ∧
    traverseLoop silentAnalyzer idleForward doWhileTokens 13 1 1 (some 8) emptyRun =
      some (Outcome.finished emptyRun) :=
  ⟨by decide, by decide, by decide,
    (do_body_end_stops silentAnalyzer idleForward doWhileTokens 13 1 0 8 1 0 emptyRun
      (by decide) (by decide) (by decide) (by decide) (by decide) (by decide) (by decide)
      (by decide)).2⟩

/-- C5, as stated, fails for an analyzer that meets its three conditions and also
reports Write on the `;` that ends `x = 1`: the walk passes the `if` block and
stops at that `;`, and the target `x` of `x = 1` is never analysed. -/
theorem if_history_stops_at_semicolon :
    (∀ t, 8 ≤ t → t ≤ 12 → writeAtSemicolon.analyze () t = Action.None) ∧
    writeAtSemicolon.analyze () 0 = Action.Write ∧
    (0 : Int) ∉ writeAtSemicolon.evaluate () 6 ∧
    ReverseTraversal.traverse writeAtSemicolon idleForward ifTokens 2 3 14 emptyRun =
      some (Outcome.finished ⟨(), [Event.analyze 8, Event.analyze 9, Event.analyze 10,
        Event.analyze 11, Event.analyze 12, Event.analyze 3]⟩) := by
  refine ⟨?_, by decide, by decide, by decide⟩
  intro t h1 h2
  have : t = 8 ∨ t = 9 ∨ t = 10 ∨ t = 11 ∨ t = 12 := by omega
  rcases this with rfl | rfl | rfl | rfl | rfl <;> decide

/-- C5 (amended): on `x = 1 ; if ( x ) { y = 2 ; } z ;`, for every analyzer
that reports None on the tokens of the if body, Write on the target `x` of
`x = 1`, whose `evaluate` on the condition `x` never contains zero, and whose
default observation of the `;` after `x = 1` does not abort, `traverse`
started at `z` scans the body (no assume, no forward) and puts the cursor
variable on the `if`, so that the walk goes on before it; it then observes
the `;`, analyses the target `x` and stops there: the run ends with exactly
these calls. -/
theorem if_history_reaches_assignment {σ : Type} (an : GenericAnalyzer σ) (fw : ForwardEngine σ)
    (k n : Nat) (s : RunState σ)
    (hbody : ∀ st t, 8 ≤ t → t ≤ 12 → an.analyze st t = Action.None)
    (htarget : ∀ st, (an.analyze st 0).write = true)
    (hcond : ∀ st, (0 : Int) ∉ an.evaluate st 6)
    (hsemi : ∀ s1 : RunState σ, (update an s1 3).1 = true) :
    loopBody an fw ifTokens 14 (k + 2) 13 s =
      some (Step.again (some 4) ⟨s.st, s.log ++ [Event.analyze 8, Event.analyze 9,
        Event.analyze 10, Event.analyze 11, Event.analyze 12]⟩) ∧
    ReverseTraversal.traverse an fw ifTokens (k + 2) (n + 3) 14 s =
      some (Outcome.finished
        ⟨if (an.analyze s.st 3).isRead then an.update s.st 3 (an.analyze s.st 3) else s.st,
         s.log ++ [Event.analyze 8, Event.analyze 9, Event.analyze 10, Event.analyze 11,
            Event.analyze 12, Event.analyze 3] ++
          (if (an.analyze s.st 3).isRead then [Event.update 3 (an.analyze s.st 3)] else []) ++
          [Event.analyze 0]⟩) := by
  have hb8 := fun st => hbody st 8 (by omega) (by omega)
  have hb9 := fun st => hbody st 9 (by omega) (by omega)
  have hb10 := fun st => hbody st 10 (by omega) (by omega)
  have hb11 := fun st => hbody st 11 (by omega) (by omega)
  have hb12 := fun st => hbody st 12 (by omega) (by omega)
  have hrange : analyzeRange an ifTokens s (some 8) (some 13) =
      (Action.None, ⟨s.st, s.log ++ [Event.analyze 8, Event.analyze 9, Event.analyze 10,
            Event.analyze 11, Event.analyze 12]⟩) := by
    simp [analyzeRange, analyzeRangeLoop, callAnalyze, hb8, hb9, hb10, hb11, hb12, next, ifTokens,
      Action.None, Action.combine, Action.isModified, Action.isInconclusive]
  have hc := hcond s.st
  have hend : loopBody an fw ifTokens 14 (k + 2) 13 s = some (Step.again (some 4)
      ⟨s.st, s.log ++ [Event.analyze 8, Event.analyze 9, Event.analyze 10,
            Event.analyze 11, Event.analyze 12]⟩) := by
    have h1 : str ifTokens 13 = "\x7d" := by decide
    have h2 : tokenMatch ifTokens (some 13) "return|break|continue" = false := by decide
    have h3 : assignExpr ifTokens (k + 2) 13 = some none := by
      simp [assignExpr, astParent, tokenAt, ifTokens, tk, tkIn]
    have h4 : getCondTokFromEnd ifTokens (k + 2) 13 = some (some 6) := by
      have e1 : link ifTokens 13 = some 8 := by decide
      have e2 : str ifTokens 8 = "\x7b" := by decide
      have e3 : simpleMatch ifTokens (previous 8) ")" = true := by decide
      have e4 : (previous 8).bind (link ifTokens) = some 5 := by decide
      have e5 : getCondTok ifTokens 5 = some 6 := by decide
      simp [getCondTokFromEnd, h1, e1, e2, e3, e4, e5]
    have h5 : astTop ifTokens (k + 2) 6 = some 5 := by
      simp [astTop, astParent, tokenAt, ifTokens, tk, tkIn]
    have h6 : tokenMatch ifTokens (some 4) "for|while (" = false := by decide
    have h7 : link ifTokens 13 = some 8 := by decide
    have h8 : simpleMatch ifTokens (previous 8) "else \x7b" = false := by decide
    have h9 : previous 5 = some 4 := by decide
    simp [loopBody, blockEndStep, loopCondFirst, h1, h2, h3, h4, h5, h6, h7, h8, h9, hrange,
      evalCond, hc, Action.None, Action.isRead, Action.isModified]
  have hsemi3 : ∀ s1 : RunState σ, loopBody an fw ifTokens 14 (k + 2) 3 s1 =
      some (Step.again (some 3) (update an s1 3).2) := by
    intro s1
    have h1 : str ifTokens 3 = ";" := by decide
    have h2 : tokenMatch ifTokens (some 3) "return|break|continue" = false := by decide
    have h3 : assignExpr ifTokens (k + 2) 3 = some none := by
      simp [assignExpr, astParent, tokenAt, ifTokens, tk, tkIn]
    have h4 : isUnevaluated ifTokens 3 = none := by decide
    have h5 : isDeadCode an ifTokens (k + 2) s1 3 = some (none, s1) := by
      simp [isDeadCode, isDeadCodeLoop, astParent, tokenAt, ifTokens, tk, tkIn]
    simp [loopBody, h1, h2, h3, h4, h5, hsemi s1]
  have hassign : ∀ s1 : RunState σ, loopBody an fw ifTokens 14 (k + 2) 2 s1 =
      some (Step.leave ⟨s1.st, s1.log ++ [Event.analyze 0]⟩) := by
    intro s1
    have h1 : str ifTokens 2 = "1" := by decide
    have h2 : tokenMatch ifTokens (some 2) "return|break|continue" = false := by decide
    have h3 : assignExpr ifTokens (k + 2) 2 = some (some 1) := by
      simp [assignExpr, astParent, astOperand2, astIsRHS, isAssignmentOp, Token.isAssignmentOp,
        tokenAt, ifTokens, tk, tkIn]
    have h4 : isAssignmentOp ifTokens 1 = true := by decide
    have h5 : astOperand1 ifTokens 1 = some 0 := by decide
    have h6 : astParent ifTokens 1 = none := by decide
    have ht := htarget s1.st
    simp [loopBody, assignStep, assignTopLoop, analyzeRecursive, visitAnalyze, callAnalyze,
      h1, h2, h3, h4, h5, h6, ht, Action.combine, Action.None, Action.isRead, Action.isModified]
  refine ⟨hend, ?_⟩
  simp [ReverseTraversal.traverse, traverseLoop, previous, hend, hsemi3, hassign, update_snd]

/-- C5 (amended), at the analyzer that reports Write on the target `x` only and
evaluates the condition to the single value 1. -/
theorem if_history_reaches_assignment_witness :
    ReverseTraversal.traverse writeAtTarget idleForward ifTokens 2 3 14 emptyRun =
      some (Outcome.finished ⟨(), [Event.analyze 8, Event.analyze 9, Event.analyze 10,
        Event.analyze 11, Event.analyze 12, Event.analyze 3, Event.analyze 0]⟩) :=
  (if_history_reaches_assignment writeAtTarget idleForward 0 0 emptyRun
    (fun _ t h1 _ => by
      have h0 : t ≠ 0 := by omega
      simp [writeAtTarget, h0])
    (fun _ => rfl) (fun _ => by simp [writeAtTarget]) (fun _ => rfl)).2

/-! ### Traversal: the assignment step -/

/-- C11, evaluated at `x = y + 1 , z ;` with the cursor on `+` (position 3):
`assignExpr` returns the `=`, but the climbing loop of the assignment step ends
on the parent `,` of the `=`, which is not an assignment operator; the operand
that is forwarded is the right operand `z` of the `,` (not the right side
`y + 1` of the assignment) and the cursor variable is set to the token before
the `,` (the `1`), not to the token before the `=`. -/
theorem assignTop_comma_is_not_assignment (k : Nat) (s : RunState Unit) :
    assignExpr commaTokens (k + 1) 3 = some (some 1) ∧
    assignTopLoop silentAnalyzer commaTokens (k + 3) (k + 3) 1 Action.None s =
      some (5, Action.None, ⟨(), s.log ++ [Event.analyze 0]⟩) ∧
    isAssignmentOp commaTokens 5 = false ∧ str commaTokens 5 = "," ∧
    isAssignmentOp commaTokens 1 = true ∧ astOperand2 commaTokens 1 = some 3 ∧
    assignStep silentAnalyzer idleForward commaTokens (k + 3) 1 s =
      some (Step.again (some 4) ⟨(), s.log ++ [Event.analyze 0, Event.forward (some 6)]⟩) := by
  refine ⟨?_, ?_, by decide, by decide, by decide, by decide, ?_⟩ <;>
  simp [assignExpr, assignStep, assignTopLoop, analyzeRecursive, visitAnalyze,
      callAnalyze, callForward,
      astParent, astOperand1, astOperand2, astIsRHS, isAssignmentOp, Token.isAssignmentOp,
      tokenAt, commaTokens, tk, silentAnalyzer, idleForward, previous,
      Action.combine, Action.None, Action.isRead, Action.isModified, Action.isInconclusive]

/-- The walk of `analyzeRecursive` leaves the analyzer state as it is and adds
only `analyze` calls to the log. -/
theorem visitAnalyze_log {σ : Type} (an : GenericAnalyzer σ) (toks : List Token) :
    ∀ (k : Nat) (stack : List (Option Nat)) (r : Action) (s : RunState σ) (a : Action)
      (s1 : RunState σ), visitAnalyze an toks k stack r s = some (a, s1) →
      s1.st = s.st ∧ ∃ evs, s1.log = s.log ++ evs ∧ ∀ e ∈ evs, e.isAnalyze = true := by
  intro k
  induction k with
  | zero =>
    intro stack r s a s1 h
    cases stack with
    | nil =>
      simp [visitAnalyze] at h
      obtain ⟨_, rfl⟩ := h
      exact ⟨rfl, [], by simp, by simp⟩
    | cons x xs => simp [visitAnalyze] at h
  | succ k ih =>
    intro stack r s a s1 h
    cases stack with
    | nil =>
      simp [visitAnalyze] at h
      obtain ⟨_, rfl⟩ := h
      exact ⟨rfl, [], by simp, by simp⟩
    | cons x xs =>
      cases x with
      | none =>
        simp only [visitAnalyze] at h
        exact ih _ _ _ _ _ h
      | some t =>
        simp only [visitAnalyze, callAnalyze] at h
        split at h
        · simp at h
          obtain ⟨_, rfl⟩ := h
          exact ⟨rfl, [Event.analyze t], rfl, by simp [Event.isAnalyze]⟩
        · obtain ⟨h1, evs, h2, h3⟩ := ih _ _ _ _ _ h
          refine ⟨h1, Event.analyze t :: evs, ?_, ?_⟩
          · simp [h2]
          · intro e he
            simp at he
            rcases he with rfl | he
            · rfl
            · exact h3 e he

/-- The climbing loop of the assignment step leaves the analyzer state as it is
and adds only `analyze` calls to the log. -/
theorem assignTopLoop_log {σ : Type} (an : GenericAnalyzer σ) (toks : List Token) (k : Nat) :
    ∀ (n top : Nat) (r : Action) (s : RunState σ) (top1 : Nat) (a : Action) (s1 : RunState σ),
      assignTopLoop an toks k n top r s = some (top1, a, s1) →
      s1.st = s.st ∧ ∃ evs, s1.log = s.log ++ evs ∧ ∀ e ∈ evs, e.isAnalyze = true := by
  intro n
  induction n with
  | zero => intro top r s top1 a s1 h; simp [assignTopLoop] at h
  | succ n ih =>
    intro top r s top1 a s1 h
    simp only [assignTopLoop] at h
    split at h
    · cases hr : analyzeRecursive an toks k s (astOperand1 toks top) with
      | none => simp [hr] at h
      | some p =>
        obtain ⟨a0, s0⟩ := p
        obtain ⟨h1, evs, h2, h3⟩ := visitAnalyze_log an toks k _ _ _ _ _ hr
        simp only [hr] at h
        split at h
        · simp at h
          obtain ⟨_, _, rfl⟩ := h
          exact ⟨h1, evs, h2, h3⟩
        · obtain ⟨h4, evs2, h5, h6⟩ := ih _ _ _ _ _ _ h
          refine ⟨by rw [h4, h1], evs ++ evs2, by simp [h5, h2], ?_⟩
          intro e he
          simp at he
          rcases he with he | he
          · exact h3 e he
          · exact h6 e he
    · simp at h
      obtain ⟨_, _, rfl⟩ := h
      exact ⟨rfl, [], by simp, by simp⟩

/-- C12: in the assignment step, with `A` the action the climbing loop
accumulates with `analyzeRecursive` over the left operands (a loop that only
calls `analyze`): if `A` is Read or Modified the pass is a `break`, after one
forward call on the left operand of the assignment top when `A` is not
Modified and after no forward call when it is; otherwise there is exactly one
forward call, on the right operand of the assignment top, and the cursor
variable is set to the token before the assignment top, from where the walk
goes on. -/
theorem assignStep_spec {σ : Type} (an : GenericAnalyzer σ) (fw : ForwardEngine σ)
    (toks : List Token) (k assignTok top : Nat) (A : Action) (s s1 : RunState σ)
    (h : assignTopLoop an toks k k assignTok Action.None s = some (top, A, s1)) :
    (s1.st = s.st ∧ ∃ evs, s1.log = s.log ++ evs ∧ ∀ e ∈ evs, e.isAnalyze = true) ∧
    (A.isModified = true → assignStep an fw toks k assignTok s = some (Step.leave s1)) ∧
    (A.isRead = true → A.isModified = false →
      assignStep an fw toks k assignTok s =
        some (Step.leave ⟨fw.forward s1.st (astOperand1 toks top),
          s1.log ++ [Event.forward (astOperand1 toks top)]⟩)) ∧
    (A.isRead = false → A.isModified = false →
      assignStep an fw toks k assignTok s =
        some (Step.again (previous top) ⟨fw.forward s1.st (astOperand2 toks top),
          s1.log ++ [Event.forward (astOperand2 toks top)]⟩)) := by
  refine ⟨assignTopLoop_log an toks k _ _ _ _ _ _ _ h, ?_, ?_, ?_⟩
  · intro hm
    simp [assignStep, h, hm]
  · intro hr hm
    simp [assignStep, h, hm, hr, callForward]
  · intro hr hm
    simp [assignStep, h, hm, hr, callForward]

/-- C12, at `x = 1 ; if ( x ) { y = 2 ; } z ;` with the cursor on the `1` of
`x = 1`: an analyzer that reports None everywhere gets one forward call on the
right operand and the cursor variable on `x`; one that reports Write on the
target `x` stops the traversal without a forward call. -/
theorem assignStep_spec_witness :
    assignStep silentAnalyzer idleForward ifTokens 3 1 emptyRun =
      some (Step.again (some 0) ⟨(), [Event.analyze 0, Event.forward (some 2)]⟩) ∧
    assignStep writeAtTarget idleForward ifTokens 3 1 emptyRun =
      some (Step.leave ⟨(), [Event.analyze 0]⟩) :=
  ⟨(assignStep_spec silentAnalyzer idleForward ifTokens 3 1 1 Action.None emptyRun
      ⟨(), [Event.analyze 0]⟩ (by decide)).2.2.2 rfl rfl,
   (assignStep_spec writeAtTarget idleForward ifTokens 3 1 1 Action.Write emptyRun
      ⟨(), [Event.analyze 0]⟩ (by decide)).2.1 rfl⟩

/-! ### Traversal: flat scans of a block body -/

/-- The flat scan of `analyzeRange` leaves the analyzer state as it is and adds
only `analyze` calls to the log, all on tokens at or after its start. -/
theorem analyzeRangeLoop_log {σ : Type} (an : GenericAnalyzer σ) (toks : List Token)
    (stop : Option Nat) :
    ∀ (fuel p : Nat) (r : Action) (s : RunState σ),
      (analyzeRangeLoop an toks fuel (some p) stop r s).2.st = s.st ∧
      ∃ evs, (analyzeRangeLoop an toks fuel (some p) stop r s).2.log = s.log ++ evs ∧
        ∀ e ∈ evs, ∃ t, e = Event.analyze t ∧ p ≤ t := by
  intro fuel
  induction fuel with
  | zero => intro p r s; exact ⟨rfl, [], by simp [analyzeRangeLoop], by simp⟩
  | succ fuel ih =>
    intro p r s
    simp only [analyzeRangeLoop, callAnalyze]
    split
    · exact ⟨rfl, [], by simp, by simp⟩
    · split
      · exact ⟨rfl, [Event.analyze p], rfl, by simp⟩
      · cases hn : next toks p with
        | none =>
          cases fuel with
          | zero => exact ⟨rfl, [Event.analyze p], by simp [analyzeRangeLoop], by simp⟩
          | succ f => exact ⟨rfl, [Event.analyze p], by simp [analyzeRangeLoop], by simp⟩
        | some q =>
          have hq : q = p + 1 := by
            unfold next at hn
            split at hn <;> simp at hn
            omega
          obtain ⟨h1, evs, h2, h3⟩ := ih q (r.combine (an.analyze s.st p))
            ⟨s.st, s.log ++ [Event.analyze p]⟩
          refine ⟨h1, Event.analyze p :: evs, by simp [h2], ?_⟩
          intro e he
          simp at he
          rcases he with rfl | he
          · exact ⟨p, rfl, le_refl _⟩
          · obtain ⟨t, ht, hle⟩ := h3 e he
            exact ⟨t, ht, by omega⟩

/-- The flat scan of `analyzeRange` returns a Modified action when it meets a
Modified token before any token that is Inconclusive without being Modified. -/
theorem analyzeRangeLoop_modified {σ : Type} (an : GenericAnalyzer σ) (toks : List Token)
    (lo t e : Nat) (st : σ) (hte : t < e) (hlen : t < toks.length)
    (hmod : (an.analyze st t).isModified = true)
    (hbefore : ∀ u, lo ≤ u → u < t → (an.analyze st u).isModified = false →
      (an.analyze st u).isInconclusive = false) :
    ∀ (fuel p : Nat) (r : Action) (s : RunState σ), s.st = st → lo ≤ p → p ≤ t →
      t < p + fuel →
      (analyzeRangeLoop an toks fuel (some p) (some e) r s).1.isModified = true := by
  intro fuel
  induction fuel with
  | zero => intro p r s _ _ h1 h2; omega
  | succ fuel ih =>
    intro p r s hs hlo h1 h2
    have hpe : (some p : Option Nat) ≠ some e := by
      intro h; injection h with h; omega
    simp only [analyzeRangeLoop, callAnalyze, hpe, if_false, hs]
    by_cases hm : (an.analyze st p).isModified = true
    · simp [hm]
    · simp only [Bool.not_eq_true] at hm
      have hpt : p ≠ t := by
        intro h; subst h; rw [hmod] at hm; exact Bool.noConfusion hm
      have hi := hbefore p hlo (by omega) hm
      have hn : next toks p = some (p + 1) := by
        unfold next
        have : p + 1 < toks.length := by omega
        simp [this]
      simp only [hm, hi, Bool.or_self, Bool.false_eq_true, if_false, hn]
      exact ih (p + 1) _ _ rfl (by omega) (by omega) (by omega)

/-- C13, as stated, fails on `do { y ; x ++ ; } while ( c ) ;` when `analyze`
reports Inconclusive on `y` and Write on `x`: with the cursor on the `{` of
the do body the scan stops at `y` with an action that is not Modified, the
traversal does not abort, and the `do` before the `{` is analysed. -/
theorem loop_body_scan_stops_at_inconclusive :
    (tableAnalyzer (fun t => if t = 2 then Action.Inconclusive else
        if t = 4 then Action.Write else Action.None) (fun _ => [])).analyze () 4 = Action.Write ∧
    ReverseTraversal.traverse
        (tableAnalyzer (fun t => if t = 2 then Action.Inconclusive else
          if t = 4 then Action.Write else Action.None) (fun _ => []))
        idleForward doScanTokens 3 5 2 emptyRun =
      some (Outcome.finished ⟨(), [Event.analyze 1, Event.analyze 2, Event.analyze 0]⟩) := by
  decide

/-- C13 (amended): when the cursor is on the opening `{` of a loop body
(preceded by `do`, or by the `)` of a `for (` or `while (` header) and, scanning
the body from that `{` towards its matching `}`, a token whose action is
Modified comes before any token whose action is Inconclusive without being
Modified, the traversal aborts at that `{`: the pass is a `break`, the analyzer
state is unchanged and the only calls made are `analyze` calls on tokens at or
after the `{`. -/
theorem loop_body_start_aborts {σ : Type} (an : GenericAnalyzer σ) (fw : ForwardEngine σ)
    (toks : List Token) (start k n tok p e t : Nat) (s : RunState σ)
    (hk : 0 < k) (hstart : tok ≠ start)
    (hstr : str toks tok = "\x7b")
    (hscope : scopeType toks tok ≠ ScopeType.eFunction ∧ scopeType toks tok ≠ ScopeType.eLambda)
    (hpar : astParent toks tok = none)
    (hprev : previous tok = some p)
    (hhead : str toks p = "do" ∨ (str toks p = ")" ∧ ∃ l h, link toks p = some l ∧
      str toks l = "(" ∧ previous l = some h ∧ (str toks h = "for" ∨ str toks h = "while")))
    (hlink : link toks tok = some e) (hend : str toks e = "\x7d")
    (ht : tok ≤ t ∧ t < e)
    (hmod : (an.analyze s.st t).isModified = true)
    (hbefore : ∀ u, tok ≤ u → u < t → (an.analyze s.st u).isModified = false →
      (an.analyze s.st u).isInconclusive = false) :
    ∃ s1, loopBody an fw toks start k tok s = some (Step.leave s1) ∧
      traverseLoop an fw toks start k (n + 1) (some tok) s = some (Outcome.finished s1) ∧
      s1.st = s.st ∧
      ∃ evs, s1.log = s.log ++ evs ∧ ∀ ev ∈ evs, ∃ u, ev = Event.analyze u ∧ tok ≤ u := by
  obtain ⟨k, rfl⟩ : ∃ k1, k = k1 + 1 := ⟨k - 1, by omega⟩
  have hstr1 : (tokenAt toks tok).str = "\x7b" := hstr
  have helen : e < toks.length := lt_length_of_str_ne (by simp [hend])
  have hloop : startsLoopBody toks tok = some true := by
    rcases hhead with hdo | ⟨hcl, l, h, hl, hopen, hh, hkw⟩
    · simp [startsLoopBody, hprev, simpleMatch_do, matchLiteralWords, hdo]
    · have hnext : next toks h = some l := next_of_previous hh (by simp [hopen])
      have hopen1 : (tokenAt toks l).str = "(" := hopen
      rcases hkw with hkw | hkw <;>
      · have hkw1 : (tokenAt toks h).str = _ := hkw
        simp [startsLoopBody, hprev, simpleMatch_do, matchLiteralWords, hcl, hl, hh,
          tokenMatch_for, matchWords, matchAlt, hnext, hopen1, hkw1]
  have hmodified : (analyzeRange an toks s (some tok) (some e)).1.isModified = true := by
    unfold analyzeRange
    exact analyzeRangeLoop_modified an toks tok t e s.st ht.2 (by omega) hmod hbefore
      (toks.length + 1) tok Action.None s rfl (le_refl _) ht.1 (by omega)
  have hbody : loopBody an fw toks start (k + 1) tok s =
      some (Step.leave (analyzeRange an toks s (some tok) (some e)).2) := by
    simp [loopBody, hstart, hstr, hstr1, hscope.1, hscope.2, tokenMatch_return, matchWords,
      matchAlt, assignExpr, hpar, blockStartStep, hloop, hlink, hmodified]
  obtain ⟨h1, evs, h2, h3⟩ := analyzeRangeLoop_log an toks (some e) (toks.length + 1) tok
    Action.None s
  refine ⟨_, hbody, by simp [traverseLoop, hbody], h1, evs, h2, h3⟩

/-- C13 (amended), at `do { y ; x ++ ; } while ( c ) ;` with the cursor on the
`{` and an analyzer that reports Write on `x` and None elsewhere. -/
theorem loop_body_start_aborts_witness :
    ∃ s1, loopBody (tableAnalyzer (fun t => if t = 4 then Action.Write else Action.None)
        (fun _ => [])) idleForward doScanTokens 2 1 1 emptyRun = some (Step.leave s1) ∧
      traverseLoop (tableAnalyzer (fun t => if t = 4 then Action.Write else Action.None)
        (fun _ => [])) idleForward doScanTokens 2 1 1 (some 1) emptyRun =
        some (Outcome.finished s1) ∧
      s1.st = emptyRun.st ∧
      ∃ evs, s1.log = emptyRun.log ++ evs ∧ ∀ ev ∈ evs, ∃ u, ev = Event.analyze u ∧ 1 ≤ u :=
  loop_body_start_aborts (tableAnalyzer (fun t => if t = 4 then Action.Write else Action.None)
      (fun _ => [])) idleForward doScanTokens 2 1 0 1 0 7 4 emptyRun
    (by decide) (by decide) (by decide) (by decide) (by decide) (by decide)
    (Or.inl (by decide)) (by decide) (by decide) (by decide) (by decide)
    (fun u h1 h2 _ => by
      have h4 : u ≠ 4 := by omega
      simp [tableAnalyzer, h4, Action.None, Action.isInconclusive])

/-- C14, evaluated on the body of `do { y ; x ++ ; } while ( c ) ;` with an
analyzer that reports Read on `y` and Write on `x`: `analyzeRange` from the
`{` to the `}` stops at `x` and returns the action of `x` alone, Write, which
is not Read, where the combine of the actions of the visited tokens is Read
and Write. -/
theorem analyzeRange_drops_accumulated_read :
    analyzeRange (tableAnalyzer (fun t => if t = 2 then Action.Read else
        if t = 4 then Action.Write else Action.None) (fun _ => []))
      doScanTokens emptyRun (some 1) (some 7) =
      (Action.Write, ⟨(), [Event.analyze 1, Event.analyze 2, Event.analyze 3,
        Event.analyze 4]⟩) ∧
    Action.Write.isRead = false ∧
    (((Action.None.combine Action.Read).combine Action.None).combine Action.Write).isRead =
      true := by
  decide

/-! ### Traversal: the block-end step -/

/-- A block with a controlling condition starts at a `{`. -/
theorem getCondTokFromEnd_open {toks : List Token} {k tok c start : Nat}
    (hc : getCondTokFromEnd toks k tok = some (some c)) (hlink : link toks tok = some start) :
    str toks start = "\x7b" := by
  cases k with
  | zero => simp [getCondTokFromEnd] at hc
  | succ k =>
    simp only [getCondTokFromEnd, hlink] at hc
    split at hc
    · simp at hc
    · split at hc
      · simp at hc
      · rename_i h
        simpa using h

/-- Is the block that starts at `start` an else block: the `{` comes right after
an `else`. -/
theorem inElse_iff {toks : List Token} {start : Nat} (hopen : str toks start = "\x7b") :
    simpleMatch toks (previous start) "else \x7b" = true ↔
      ∃ p, previous start = some p ∧ str toks p = "else" := by
  rw [simpleMatch_else]
  cases hp : previous start with
  | none => simp [matchLiteralWords]
  | some p =>
    have hnext : next toks p = some start := next_of_previous hp (by simp [hopen])
    simp [matchLiteralWords, hnext, hopen]

/-- The block-end step once the condition is found and the loop-condition part
lets the pass go on: the body part, then a `break` or a jump decided by
`evalCond` alone. -/
theorem blockEndStep_eq {σ : Type} (an : GenericAnalyzer σ) (fw : ForwardEngine σ)
    (toks : List Token) (k tok c top start : Nat) (s s1 : RunState σ)
    (hc : getCondTokFromEnd toks k tok = some (some c)) (htop : astTop toks k c = some top)
    (hfirst : loopCondFirst an fw toks k c top s = some (false, s1))
    (hlink : link toks tok = some start) :
    blockEndStep an fw toks k tok s =
      some (if (simpleMatch toks (previous start) "else \x7b" &&
              (evalCond an (blockBodyState an fw toks tok c start s1).st c).1) ||
            (!simpleMatch toks (previous start) "else \x7b" &&
              (evalCond an (blockBodyState an fw toks tok c start s1).st c).2)
        then Step.leave (blockBodyState an fw toks tok c start s1)
        else Step.again (previous top) (blockBodyState an fw toks tok c start s1)) := by
  simp only [blockEndStep, hc, htop, hfirst, hlink, blockBodyState]
  cases simpleMatch toks (previous start) "else \x7b" <;>
    cases (evalCond an _ c).1 <;> cases (evalCond an _ c).2 <;> simp

/-- C15: at a block-end `}` with controlling condition `c`, with `A` the action
that `analyzeRange` returns for the body from the opening `{` to this `}` (a
scan that only calls `analyze`): when `A` is Modified the state in which the
condition is evaluated is reached by exactly one call `assume(c, v, c)`, with
`v` true when the block is not an else block and false when the `{` comes right
after `else`, and no forward call; when `A` is Read and not Modified by exactly
one forward call from the block start to the `}`; otherwise by no call.  In all
cases the pass then ends in a `break` or in the jump before the top of the
condition, and which of the two is decided by `evalCond` in that state. -/
theorem blockEnd_body_calls {σ : Type} (an : GenericAnalyzer σ) (fw : ForwardEngine σ)
    (toks : List Token) (k tok c top start : Nat) (s s1 : RunState σ)
    (hc : getCondTokFromEnd toks k tok = some (some c)) (htop : astTop toks k c = some top)
    (hfirst : loopCondFirst an fw toks k c top s = some (false, s1))
    (hlink : link toks tok = some start) :
    ((analyzeRange an toks s1 (some start) (some tok)).2.st = s1.st ∧
      ∃ evs, (analyzeRange an toks s1 (some start) (some tok)).2.log = s1.log ++ evs ∧
        ∀ ev ∈ evs, ∃ u, ev = Event.analyze u ∧ start ≤ u) ∧
    (simpleMatch toks (previous start) "else \x7b" = true ↔
      ∃ p, previous start = some p ∧ str toks p = "else") ∧
    ((analyzeRange an toks s1 (some start) (some tok)).1.isModified = true →
      blockBodyState an fw toks tok c start s1 =
        ⟨an.assume (analyzeRange an toks s1 (some start) (some tok)).2.st c
            (!simpleMatch toks (previous start) "else \x7b") c,
          (analyzeRange an toks s1 (some start) (some tok)).2.log ++
            [Event.assume c (!simpleMatch toks (previous start) "else \x7b") c]⟩) ∧
    ((analyzeRange an toks s1 (some start) (some tok)).1.isModified = false →
      (analyzeRange an toks s1 (some start) (some tok)).1.isRead = true →
      blockBodyState an fw toks tok c start s1 =
        ⟨fw.forwardRange (analyzeRange an toks s1 (some start) (some tok)).2.st (some start) tok,
          (analyzeRange an toks s1 (some start) (some tok)).2.log ++
            [Event.forwardRange (some start) tok]⟩) ∧
    ((analyzeRange an toks s1 (some start) (some tok)).1.isModified = false →
      (analyzeRange an toks s1 (some start) (some tok)).1.isRead = false →
      blockBodyState an fw toks tok c start s1 =
        (analyzeRange an toks s1 (some start) (some tok)).2) ∧
    (blockEndStep an fw toks k tok s =
        some (Step.leave (blockBodyState an fw toks tok c start s1)) ∨
      blockEndStep an fw toks k tok s =
        some (Step.again (previous top) (blockBodyState an fw toks tok c start s1))) ∧
    (blockEndStep an fw toks k tok s =
        some (Step.leave (blockBodyState an fw toks tok c start s1)) ↔
      ((simpleMatch toks (previous start) "else \x7b" &&
          (evalCond an (blockBodyState an fw toks tok c start s1).st c).1) ||
        (!simpleMatch toks (previous start) "else \x7b" &&
          (evalCond an (blockBodyState an fw toks tok c start s1).st c).2)) = true) := by
  have heq := blockEndStep_eq an fw toks k tok c top start s s1 hc htop hfirst hlink
  refine ⟨?_, inElse_iff (getCondTokFromEnd_open hc hlink), ?_, ?_, ?_, ?_, ?_⟩
  · exact analyzeRangeLoop_log an toks (some tok) (toks.length + 1) start Action.None s1
  · intro hm
    simp [blockBodyState, hm, callAssume]
  · intro hm hr
    simp [blockBodyState, hm, hr, callForwardRange]
  · intro hm hr
    simp [blockBodyState, hm, hr]
  · rw [heq]
    split
    · exact Or.inl rfl
    · exact Or.inr rfl
  · rw [heq]
    split
    · rename_i h; simp [h]
    · rename_i h; simp [h]

/-- C15, at `x = 1 ; if ( x ) { y = 2 ; } z ;` with the cursor on the `}` and an
analyzer that reports Write on the `y` of the body and evaluates the condition
to the single value 1: one `assume(c, true, c)` call follows the scan. -/
theorem blockEnd_body_calls_witness :
    blockBodyState (tableAnalyzer (fun t => if t = 9 then Action.Write else Action.None)
        (fun t => if t = 6 then [1] else [])) idleForward ifTokens 13 6 8 emptyRun =
      ⟨(), [Event.analyze 8, Event.analyze 9, Event.assume 6 true 6]⟩ :=
  (blockEnd_body_calls (tableAnalyzer (fun t => if t = 9 then Action.Write else Action.None)
      (fun t => if t = 6 then [1] else [])) idleForward ifTokens 2 13 6 5 8 emptyRun emptyRun
    (by decide) (by decide) (by decide) (by decide)).2.2.1 (by decide)

/-- C16, as stated, fails on `x = 1 ; if ( x ) { y = 2 ; } z ;` when the
condition `x` evaluates to the value set with 0 and 1: with the cursor on the
`}` of the then block the traversal stops, it does not jump before the
condition. -/
theorem blockEnd_stops_on_mixed_values :
    (tableAnalyzer (fun _ => Action.None) (fun t => if t = 6 then [0, 1] else [])).evaluate
      () 6 = [0, 1] ∧
    getCondTokFromEnd ifTokens 3 13 = some (some 6) ∧
    simpleMatch ifTokens (previous 8) "else \x7b" = false ∧
    loopBody (tableAnalyzer (fun _ => Action.None) (fun t => if t = 6 then [0, 1] else []))
        idleForward ifTokens 14 3 13 emptyRun =
      some (Step.leave ⟨(), [Event.analyze 8, Event.analyze 9, Event.analyze 10,
        Event.analyze 11, Event.analyze 12]⟩) := by
  decide

/-- C16 (amended): at a block-end `}` with controlling condition `c`, the walk
stops exactly when the block is an else block and `evaluate(c)` contains a
nonzero value, or the block is a then or loop block and `evaluate(c)` contains
zero (so always when it contains both); in every other case, in particular
when `evaluate(c)` is empty, the cursor variable is set to the token before the
top AST node of the condition and the walk goes on. -/
theorem blockEnd_dead_path_rule {σ : Type} (an : GenericAnalyzer σ) (fw : ForwardEngine σ)
    (toks : List Token) (k tok c top start : Nat) (s s1 : RunState σ)
    (hc : getCondTokFromEnd toks k tok = some (some c)) (htop : astTop toks k c = some top)
    (hfirst : loopCondFirst an fw toks k c top s = some (false, s1))
    (hlink : link toks tok = some start) :
    (blockEndStep an fw toks k tok s =
        some (Step.leave (blockBodyState an fw toks tok c start s1)) ↔
      ((∃ p, previous start = some p ∧ str toks p = "else") ∧
          ∃ x ∈ an.evaluate (blockBodyState an fw toks tok c start s1).st c, x ≠ 0) ∨
        ((¬ ∃ p, previous start = some p ∧ str toks p = "else") ∧
          (0 : Int) ∈ an.evaluate (blockBodyState an fw toks tok c start s1).st c)) ∧
    (blockEndStep an fw toks k tok s ≠
        some (Step.leave (blockBodyState an fw toks tok c start s1)) →
      blockEndStep an fw toks k tok s =
        some (Step.again (previous top) (blockBodyState an fw toks tok c start s1))) ∧
    (an.evaluate (blockBodyState an fw toks tok c start s1).st c = [] →
      blockEndStep an fw toks k tok s =
        some (Step.again (previous top) (blockBodyState an fw toks tok c start s1))) := by
  have heq := blockEndStep_eq an fw toks k tok c top start s s1 hc htop hfirst hlink
  have hin := inElse_iff (getCondTokFromEnd_open hc hlink)
  refine ⟨?_, ?_, ?_⟩
  · rw [heq, ← hin]
    cases hE : simpleMatch toks (previous start) "else \x7b" <;> simp [evalCond]
  · intro h
    rw [heq] at h ⊢
    split at h
    · exact absurd rfl h
    · rename_i hcnd; simp [hcnd]
  · intro hempty
    rw [heq]
    simp [evalCond, hempty]

/-- C16 (amended), at `x = 1 ; if ( x ) { y = 2 ; } z ;` with the cursor on the
`}` and a condition that evaluates to the single value 1: the walk goes on
before the `if`. -/
theorem blockEnd_dead_path_rule_witness :
    blockEndStep writeAtTarget idleForward ifTokens 2 13 emptyRun =
      some (Step.again (some 4) ⟨(), [Event.analyze 8, Event.analyze 9, Event.analyze 10,
        Event.analyze 11, Event.analyze 12]⟩) :=
  (blockEnd_dead_path_rule writeAtTarget idleForward ifTokens 2 13 6 5 8 emptyRun emptyRun
    (by decide) (by decide) (by decide) (by decide)).2.1 (by decide)

/-- C17, as stated, fails on `x ; { y ; } z ;` started at `z`: the block has no
controlling condition, and with the cursor on its `}` the traversal stops;
nothing before the block is analysed. -/
theorem unconditional_block_end_stops_the_walk :
    getCondTokFromEnd blockTokens 3 5 = some none ∧
    loopBody silentAnalyzer idleForward blockTokens 6 3 5 emptyRun =
      some (Step.leave emptyRun) ∧
    ReverseTraversal.traverse silentAnalyzer idleForward blockTokens 3 5 6 emptyRun =
      some (Outcome.finished emptyRun) := by
  decide

/-- C17 (amended): when the cursor is on a `}` whose block has no controlling
condition (`getCondTokFromEnd` returns null), the traversal terminates there:
the pass is a `break` and no call is made on the analyzer. -/
theorem blockEnd_without_condition_stops {σ : Type} (an : GenericAnalyzer σ)
    (fw : ForwardEngine σ) (toks : List Token) (start k n tok : Nat) (s : RunState σ)
    (hstart : tok ≠ start) (hstr : str toks tok = "\x7d")
    (hassign : assignExpr toks k tok = some none)
    (hc : getCondTokFromEnd toks k tok = some none) :
    blockEndStep an fw toks k tok s = some (Step.leave s) ∧
    loopBody an fw toks start k tok s = some (Step.leave s) ∧
    traverseLoop an fw toks start k (n + 1) (some tok) s = some (Outcome.finished s) := by
  have hstr1 : (tokenAt toks tok).str = "\x7d" := hstr
  have hend : blockEndStep an fw toks k tok s = some (Step.leave s) := by
    simp [blockEndStep, hc]
  have hbody : loopBody an fw toks start k tok s = some (Step.leave s) := by
    simp [loopBody, hstart, hstr, hstr1, tokenMatch_return, matchWords, matchAlt, hassign, hend]
  exact ⟨hend, hbody, by simp [traverseLoop, hbody]⟩

/-- C17 (amended), at `x ; { y ; } z ;` with the cursor on the `}`. -/
theorem blockEnd_without_condition_stops_witness :
    traverseLoop silentAnalyzer idleForward blockTokens 6 1 1 (some 5) emptyRun =
      some (Outcome.finished emptyRun) :=
  (blockEnd_without_condition_stops silentAnalyzer idleForward blockTokens 6 1 0 5 emptyRun
    (by decide) (by decide) (by decide) (by decide)).2.2

/-! ### Traversal: the dead-code check -/

/-- C18, evaluated at `c ? a : b ;`: when `evaluate(c)` is the set with the single
value 1 (so `a` is reachable), `isDeadCode(a)` returns the `?` token, and a
traversal started at `;` analyses neither `b` nor `a`; when `evaluate(c)` holds
both 0 and 1 (so `b` is reachable), `isDeadCode(b)` returns the `?` token. -/
theorem isDeadCode_ternary_skips_live_operands :
    isDeadCode (condAnalyzer [1]) ternaryTokens 3 emptyRun 2 = some (some 1, emptyRun) ∧
    isDeadCode (condAnalyzer [0]) ternaryTokens 3 emptyRun 2 = some (some 1, emptyRun) ∧
    isDeadCode (condAnalyzer [0, 1]) ternaryTokens 3 emptyRun 4 = some (some 1, emptyRun) ∧
    isDeadCode (condAnalyzer [1]) ternaryTokens 3 emptyRun 4 = some (some 1, emptyRun) ∧
    isDeadCode (condAnalyzer [0]) ternaryTokens 3 emptyRun 4 = some (none, emptyRun) ∧
    ReverseTraversal.traverse (condAnalyzer [1]) idleForward ternaryTokens 3 5 5 emptyRun =
      some (Outcome.finished ⟨(), [Event.analyze 0]⟩) := by
  decide

/-- C19, evaluated at `a && b ;` with `evaluate(a)` the set with the single value
1 and at `a || b ;` with `evaluate(a)` the set with the single value 0 (in both
the right operand is reachable): `isDeadCode(b)` returns the operator token,
and a traversal started at `;` jumps past `b` without calling `analyze` on it. -/
theorem isDeadCode_skips_live_right_operand :
    isDeadCode (condAnalyzer [1]) andTokens 3 emptyRun 2 = some (some 1, emptyRun) ∧
    ReverseTraversal.traverse (condAnalyzer [1]) idleForward andTokens 3 5 3 emptyRun =
      some (Outcome.finished ⟨(), [Event.analyze 0]⟩) ∧
    isDeadCode (condAnalyzer [0]) orTokens 3 emptyRun 2 = some (some 1, emptyRun) ∧
    ReverseTraversal.traverse (condAnalyzer [0]) idleForward orTokens 3 5 3 emptyRun =
      some (Outcome.finished ⟨(), [Event.analyze 0]⟩) := by
  decide

/-- C20, as stated, fails on `x = a || b ;` with `evaluate(a)` empty and `analyze`
reporting Read on `a`: `isDeadCode(b)` returns the `||` token, but with the
cursor on `b` the assignment step comes first, and the cursor variable becomes
`x`, not `||`. -/
theorem dead_code_check_not_reached_in_assignment :
    astParent assignOrTokens 4 = some 3 ∧ astOperand2 assignOrTokens 3 = some 4 ∧
    tokenMatch assignOrTokens (some 3) "%oror%|&&|?" = true ∧
    astOperand1 assignOrTokens 3 = some 2 ∧
    (tableAnalyzer (fun t => if t = 2 then Action.Read else Action.None)
      (fun _ => [])).evaluate () 2 = [] ∧
    analyzeRecursive (tableAnalyzer (fun t => if t = 2 then Action.Read else Action.None)
      (fun _ => [])) assignOrTokens 4 emptyRun (some 2) =
      some (Action.Read, ⟨(), [Event.analyze 2]⟩) ∧
    isDeadCode (tableAnalyzer (fun t => if t = 2 then Action.Read else Action.None)
      (fun _ => [])) assignOrTokens 4 emptyRun 4 = some (some 3, ⟨(), [Event.analyze 2]⟩) ∧
    loopBody (tableAnalyzer (fun t => if t = 2 then Action.Read else Action.None)
      (fun _ => [])) idleForward assignOrTokens 5 4 4 emptyRun =
      some (Step.again (some 0) ⟨(), [Event.analyze 0, Event.forward (some 3)]⟩) := by
  decide

/-- C20 (amended): for a token `tok` that is the second operand of a parent `P`
matching `&&`, `||` or `?` whose first operand `c` is not null, when
`evaluate(c)` is empty and `analyzeRecursive(c)` is Read or Modified,
`isDeadCode(tok)` returns `P`; and when the cursor is on `tok` and none of the
earlier steps applies (`tok` is not the start token, not a brace, not `return`,
`break` or `continue`, `assignExpr(tok)` and `isUnevaluated(tok)` are null),
`traverse` makes `P` the cursor variable and goes on before it, with no other
call than those of `analyzeRecursive(c)`. -/
theorem isDeadCode_unknown_condition {σ : Type} (an : GenericAnalyzer σ) (fw : ForwardEngine σ)
    (toks : List Token) (start k n tok P c : Nat) (A : Action) (s s1 : RunState σ)
    (hk : 0 < k)
    (hpar : astParent toks tok = some P) (hop2 : astOperand2 toks P = some tok)
    (hmatch : tokenMatch toks (some P) "%oror%|&&|?" = true)
    (hcond : astOperand1 toks P = some c)
    (hempty : an.evaluate s.st c = [])
    (hrec : analyzeRecursive an toks k s (some c) = some (A, s1))
    (hA : A.isRead = true ∨ A.isModified = true)
    (hstart : tok ≠ start)
    (hbrace : str toks tok ≠ "\x7b" ∧ str toks tok ≠ "\x7d")
    (hkw : tokenMatch toks (some tok) "return|break|continue" = false)
    (hassign : assignExpr toks k tok = some none)
    (huneval : isUnevaluated toks tok = none) :
    isDeadCode an toks k s tok = some (some P, s1) ∧
    loopBody an fw toks start k tok s = some (Step.again (some P) s1) ∧
    traverseLoop an fw toks start k (n + 1) (some tok) s =
      traverseLoop an fw toks start k n (previous P) s1 ∧
    (s1.st = s.st ∧ ∃ evs, s1.log = s.log ++ evs ∧ ∀ e ∈ evs, e.isAnalyze = true) := by
  obtain ⟨k, rfl⟩ : ∃ k1, k = k1 + 1 := ⟨k - 1, by omega⟩
  have hdead : isDeadCode an toks (k + 1) s tok = some (some P, s1) := by
    rcases hA with hA | hA <;>
    simp [isDeadCode, isDeadCodeLoop, hpar, hop2, hmatch, hcond, evalCond, hempty, hrec, hA]
  have hbody : loopBody an fw toks start (k + 1) tok s = some (Step.again (some P) s1) := by
    simp [loopBody, hstart, hbrace.1, hbrace.2, hkw, hassign, huneval, hdead]
  exact ⟨hdead, hbody, by simp [traverseLoop, hbody],
    visitAnalyze_log an toks (k + 1) _ _ _ _ _ hrec⟩

/-- C20 (amended), at `a || b ;` started at `;` with the cursor on `b`,
`evaluate(a)` empty and `analyze` reporting Read on `a`: the cursor variable
becomes `||` after the one `analyze` call on `a`. -/
theorem isDeadCode_unknown_condition_witness :
    loopBody (tableAnalyzer (fun t => if t = 0 then Action.Read else Action.None)
      (fun _ => [])) idleForward orTokens 3 3 2 emptyRun =
      some (Step.again (some 1) ⟨(), [Event.analyze 0]⟩) :=
  (isDeadCode_unknown_condition (tableAnalyzer (fun t => if t = 0 then Action.Read else
      Action.None) (fun _ => [])) idleForward orTokens 3 3 0 2 1 0 Action.Read emptyRun
    ⟨(), [Event.analyze 0]⟩ (by decide) (by decide) (by decide) (by decide) (by decide)
    (by decide) (by decide) (Or.inl (by decide)) (by decide) (by decide) (by decide)
    (by decide) (by decide)).2.1

/-! ### Matcher: bindings -/

/-- C21: bindings made by `Matcher::bind` are not rolled back when the enclosing
match fails: on the `+` of `1 + x`, `pattern("+").bind("op")` composed with
`binary(pattern("%name%"), pattern("%name%"))` gives a result whose `tok` is
null while its `tokens` map holds `op`, bound to the `+`; and whenever a bound
matcher `m.bind(n)` returns a token on the input token `t`, the context it
leaves, and so the `tokens` map of `astMatch`, maps `n` to `t`. -/
theorem bind_not_rolled_back :
    astMatch (some 1) (compose (Matcher.bind (pattern plusTokens "+") "op")
        (binary plusTokens (pattern plusTokens "%name%") (pattern plusTokens "%name%"))) =
      some ⟨none, [("op", some 1)]⟩ ∧
    (∀ (m : MatchFn) (n : String) (ctx c1 : Context) (t r : Nat),
      Matcher.bind m n ctx (some t) = some (some r, c1) →
        c1.tokens.lookup n = some (some t) ∧ ∃ c, m ctx (some t) = some (some r, c)) ∧
    (∀ (m : MatchFn) (n : String) (t r : Nat) (res : Result),
      astMatch (some t) (Matcher.bind m n) = some res → res.tok = some r →
        res.tokens.lookup n = some (some t)) ∧
    (∀ (m : MatchFn) (n : String) (ctx c : Context) (t r : Nat),
      m ctx (some t) = some (some r, c) →
        Matcher.bind m n ctx (some t) = some (some r, c.bind n (some t))) := by
  have hbind : ∀ (m : MatchFn) (n : String) (ctx c1 : Context) (t r : Nat),
      Matcher.bind m n ctx (some t) = some (some r, c1) →
        c1.tokens.lookup n = some (some t) ∧ ∃ c, m ctx (some t) = some (some r, c) := by
    intro m n ctx c1 t r h
    unfold Matcher.bind BindMatcher at h
    cases hm : m ctx (some t) with
    | none => simp [hm] at h
    | some p =>
      obtain ⟨res, c⟩ := p
      cases res with
      | none => simp [hm] at h
      | some r1 =>
        simp [hm] at h
        obtain ⟨h1, h2⟩ := h
        subst h1; subst h2
        exact ⟨by simp [Context.bind, List.lookup], c, rfl⟩
  refine ⟨by decide, hbind, ?_, ?_⟩
  · intro m n t r res h hr
    unfold astMatch at h
    cases hb : Matcher.bind m n ⟨[]⟩ (some t) with
    | none => simp [hb] at h
    | some p =>
      obtain ⟨r1, c1⟩ := p
      simp [hb] at h
      subst h
      simp at hr
      subst hr
      exact (hbind m n ⟨[]⟩ c1 t r hb).1
  · intro m n ctx c t r h
    simp [Matcher.bind, BindMatcher, h]

/-! ### AST: precedence -/

theorem tokenMatch_scope (toks : List Token) (t : Option Nat) :
    tokenMatch toks t "::" =
      matchWords toks t [["::"]] := by
  have h : parsePattern "::" = [["::"]] := by decide
  unfold tokenMatch; rw [h]

theorem tokenMatch_postfix (toks : List Token) (t : Option Nat) :
    tokenMatch toks t "\x7b|[|.|(" =
      matchWords toks t [["\x7b", "[", ".", "("]] := by
  have h : parsePattern "\x7b|[|.|(" = [["\x7b", "[", ".", "("]] := by decide
  unfold tokenMatch; rw [h]

theorem tokenMatch_incdec (toks : List Token) (t : Option Nat) :
    tokenMatch toks t "++|--" =
      matchWords toks t [["++", "--"]] := by
  have h : parsePattern "++|--" = [["++", "--"]] := by decide
  unfold tokenMatch; rw [h]

theorem tokenMatch_prefixop (toks : List Token) (t : Option Nat) :
    tokenMatch toks t "++|--|+|-|!|~|*|&" =
      matchWords toks t [["++", "--", "+", "-", "!", "~", "*", "&"]] := by
  have h : parsePattern "++|--|+|-|!|~|*|&" = [["++", "--", "+", "-", "!", "~", "*", "&"]] := by decide
  unfold tokenMatch; rw [h]

theorem tokenMatch_memptr (toks : List Token) (t : Option Nat) :
    tokenMatch toks t ".*" =
      matchWords toks t [[".*"]] := by
  have h : parsePattern ".*" = [[".*"]] := by decide
  unfold tokenMatch; rw [h]

theorem tokenMatch_mul (toks : List Token) (t : Option Nat) :
    tokenMatch toks t "*|/|%" =
      matchWords toks t [["*", "/", "%"]] := by
  have h : parsePattern "*|/|%" = [["*", "/", "%"]] := by decide
  unfold tokenMatch; rw [h]

theorem tokenMatch_add (toks : List Token) (t : Option Nat) :
    tokenMatch toks t "+|-" =
      matchWords toks t [["+", "-"]] := by
  have h : parsePattern "+|-" = [["+", "-"]] := by decide
  unfold tokenMatch; rw [h]

theorem tokenMatch_shift (toks : List Token) (t : Option Nat) :
    tokenMatch toks t "<<|>>" =
      matchWords toks t [["<<", ">>"]] := by
  have h : parsePattern "<<|>>" = [["<<", ">>"]] := by decide
  unfold tokenMatch; rw [h]

theorem tokenMatch_spaceship (toks : List Token) (t : Option Nat) :
    tokenMatch toks t "<=>" =
      matchWords toks t [["<=>"]] := by
  have h : parsePattern "<=>" = [["<=>"]] := by decide
  unfold tokenMatch; rw [h]

theorem tokenMatch_rel (toks : List Token) (t : Option Nat) :
    tokenMatch toks t "<|<=|>|>=" =
      matchWords toks t [["<", "<=", ">", ">="]] := by
  have h : parsePattern "<|<=|>|>=" = [["<", "<=", ">", ">="]] := by decide
  unfold tokenMatch; rw [h]

theorem tokenMatch_eq (toks : List Token) (t : Option Nat) :
    tokenMatch toks t "==|!=" =
      matchWords toks t [["==", "!="]] := by
  have h : parsePattern "==|!=" = [["==", "!="]] := by decide
  unfold tokenMatch; rw [h]

theorem tokenMatch_cond (toks : List Token) (t : Option Nat) :
    tokenMatch toks t "?|:|throw|%assign%" =
      matchWords toks t [["?", ":", "throw", "%assign%"]] := by
  have h : parsePattern "?|:|throw|%assign%" = [["?", ":", "throw", "%assign%"]] := by decide
  unfold tokenMatch; rw [h]

theorem simpleMatch_amp (toks : List Token) (t : Option Nat) :
    simpleMatch toks t "&" = matchLiteralWords toks t ["&"] := by
  have h : (splitOnChar ' ' "&".data).map String.mk = ["&"] := by decide
  unfold simpleMatch; rw [h]

theorem simpleMatch_bar (toks : List Token) (t : Option Nat) :
    simpleMatch toks t "|" = matchLiteralWords toks t ["|"] := by
  have h : (splitOnChar ' ' "|".data).map String.mk = ["|"] := by decide
  unfold simpleMatch; rw [h]

theorem simpleMatch_andand (toks : List Token) (t : Option Nat) :
    simpleMatch toks t "&&" = matchLiteralWords toks t ["&&"] := by
  have h : (splitOnChar ' ' "&&".data).map String.mk = ["&&"] := by decide
  unfold simpleMatch; rw [h]

theorem simpleMatch_barbar (toks : List Token) (t : Option Nat) :
    simpleMatch toks t "||" = matchLiteralWords toks t ["||"] := by
  have h : (splitOnChar ' ' "||".data).map String.mk = ["||"] := by decide
  unfold simpleMatch; rw [h]

theorem simpleMatch_comma (toks : List Token) (t : Option Nat) :
    simpleMatch toks t "," = matchLiteralWords toks t [","] := by
  have h : (splitOnChar ' ' ",".data).map String.mk = [","] := by decide
  unfold simpleMatch; rw [h]

/-- The precedence of a node whose token is null is 0. -/
theorem getPrecedence_null (toks : List Token) (ast : AST) (h : ast.tok = none) :
    getPrecedence toks ast = 0 := by
  simp [getPrecedence, h, tokenMatch_scope, tokenMatch_postfix, tokenMatch_incdec,
    tokenMatch_prefixop, tokenMatch_memptr, tokenMatch_mul, tokenMatch_add, tokenMatch_shift,
    tokenMatch_spaceship, tokenMatch_rel, tokenMatch_eq, tokenMatch_cond, simpleMatch_amp,
    simpleMatch_bar, simpleMatch_andand, simpleMatch_barbar, simpleMatch_comma, matchWords,
    matchLiteralWords]

/-- The precedence of a node whose token is not an assignment operator and has
none of the texts that `getPrecedence` tests is 0. -/
theorem getPrecedence_other (toks : List Token) (ast : AST) (t : Nat) (h : ast.tok = some t)
    (htext : str toks t ∉ precedenceTexts) (hassign : (tokenAt toks t).isAssignmentOp = false) :
    getPrecedence toks ast = 0 := by
  have hs : (tokenAt toks t).str ∉ precedenceTexts := htext
  simp [precedenceTexts] at hs
  simp [getPrecedence, h, tokenMatch_scope, tokenMatch_postfix, tokenMatch_incdec,
    tokenMatch_prefixop, tokenMatch_memptr, tokenMatch_mul, tokenMatch_add, tokenMatch_shift,
    tokenMatch_spaceship, tokenMatch_rel, tokenMatch_eq, tokenMatch_cond, simpleMatch_amp,
    simpleMatch_bar, simpleMatch_andand, simpleMatch_barbar, simpleMatch_comma, matchWords,
    matchLiteralWords, matchAlt, str, hs, hassign]

/-- The loop of `compilePrecedence` finds a child exactly when there is one
whose precedence is below `p`. -/
theorem childBelow_iff (toks : List Token) (p : Nat) (cs : List AST) :
    childBelow toks p cs = true ↔ ∃ c ∈ cs, getPrecedence toks c < p := by
  induction cs with
  | nil => simp [childBelow]
  | cons c cs ih =>
    simp only [childBelow]
    by_cases h : getPrecedence toks c < p
    · simp [h]
    · simp [h, ih]

/-- A node with a child of lower precedence is turned into the failed AST. -/
theorem compilePrecedence_rejects (toks : List Token) (ast c : AST) (hc : c ∈ ast.children)
    (hlt : getPrecedence toks c < getPrecedence toks ast) :
    compilePrecedence toks ast = AST.nullAst := by
  have h : childBelow toks (getPrecedence toks ast) ast.children = true :=
    (childBelow_iff toks _ _).2 ⟨c, hc, hlt⟩
  simp [compilePrecedence, h]

/-- A prefix-unary node whose operator is at level 3 has precedence 3. -/
theorem getPrecedence_prefix (toks : List Token) (t : Nat) (operand : AST)
    (h : str toks t ∈ prefixOperatorTexts) :
    getPrecedence toks (AST.node2 (some t) AST.nullAst operand) = 3 := by
  have hs : (tokenAt toks t).str ∈ prefixOperatorTexts := h
  simp only [prefixOperatorTexts, List.mem_cons, List.mem_singleton, List.not_mem_nil,
    or_false] at hs
  rcases hs with hs | hs | hs | hs | hs | hs | hs | hs <;>
  simp [getPrecedence, AST.node2, AST.tok, AST.isPostfixUnary, AST.isPrefixUnary, AST.children,
    AST.failed, AST.nullAst, tokenMatch_scope, tokenMatch_postfix, tokenMatch_incdec,
    tokenMatch_prefixop, matchWords, matchAlt, hs]

/-- C22, as stated, fails at two places: the prefix-unary node that
`prefixSequence` builds for `^ x` has precedence 0 and `compilePrecedence`
returns it unchanged, not the failed AST; and the atom for the name `throw` has
precedence 15, not 0. -/
theorem caret_prefix_node_is_kept :
    (ParserEngine.prefixSequence 0 (ParserEngine.parseOp caretTokens)
      (ParserEngine.parseAtom caretTokens)).isPrefixUnary = true ∧
    getPrecedence caretTokens (ParserEngine.prefixSequence 0 (ParserEngine.parseOp caretTokens)
      (ParserEngine.parseAtom caretTokens)) = 0 ∧
    compilePrecedence caretTokens (ParserEngine.prefixSequence 0
        (ParserEngine.parseOp caretTokens) (ParserEngine.parseAtom caretTokens)) =
      AST.mk (some 0) [AST.nullAst, AST.mk (some 1) [] none] none ∧
    (compilePrecedence caretTokens (ParserEngine.prefixSequence 0
        (ParserEngine.parseOp caretTokens) (ParserEngine.parseAtom caretTokens))).failed =
      false ∧
    (tokenAt throwTokens 0).isName = true ∧
    (ParserEngine.parseAtom throwTokens 0).failed = false ∧
    getPrecedence throwTokens (ParserEngine.parseAtom throwTokens 0) = 15 := by
  refine ⟨by decide, by decide, by rfl, by decide, by decide, by decide, by decide⟩

/-- C22 (amended): `compilePrecedence(ast)` returns `ast` unchanged exactly when
no child of `ast` has a `getPrecedence` value strictly smaller than that of
`ast`, and the failed AST otherwise; failed ASTs have precedence 0, and so do
the atoms for names and literals whose text is none of the texts that
`getPrecedence` tests (every name but `throw`); hence every node of positive
precedence with a child of precedence 0 is rejected: the binary node for
`1 + x` (precedence 6), every prefix-unary node with one of the operators `++`,
`--`, `+`, `-`, `!`, `~`, `*`, `&` (precedence 3), and every node of positive
precedence whose first child is the failed placeholder. -/
theorem compilePrecedence_spec (toks : List Token) :
    (∀ ast, (compilePrecedence toks ast = ast ↔
        ∀ c ∈ ast.children, ¬ getPrecedence toks c < getPrecedence toks ast) ∧
      ((∃ c ∈ ast.children, getPrecedence toks c < getPrecedence toks ast) →
        compilePrecedence toks ast = AST.nullAst)) ∧
    (∀ ast : AST, ast.failed = true → getPrecedence toks ast = 0) ∧
    (∀ t, (tokenAt toks t).isName = true ∨ (tokenAt toks t).isLiteral = true →
      str toks t ∉ precedenceTexts →
      ParserEngine.parseAtom toks t = AST.ofTok toks (some t) ∧
        getPrecedence toks (ParserEngine.parseAtom toks t) = 0) ∧
    (∀ ast c, c ∈ ast.children → getPrecedence toks c = 0 → 0 < getPrecedence toks ast →
      compilePrecedence toks ast = AST.nullAst) ∧
    (∀ t front operand, front.failed = true →
      0 < getPrecedence toks (AST.node2 t front operand) →
      compilePrecedence toks (AST.node2 t front operand) = AST.nullAst) ∧
    (∀ t operand, str toks t ∈ prefixOperatorTexts →
      (AST.node2 (some t) AST.nullAst operand).isPrefixUnary = true ∧
      getPrecedence toks (AST.node2 (some t) AST.nullAst operand) = 3 ∧
      compilePrecedence toks (AST.node2 (some t) AST.nullAst operand) = AST.nullAst) ∧
    ParserEngine.infixSequence 0 (ParserEngine.parseAtom plusTokens)
        (ParserEngine.parseOp plusTokens) (ParserEngine.parseAtom plusTokens) =
      AST.node2 (some 1) (AST.ofTok plusTokens (some 0)) (AST.ofTok plusTokens (some 2)) ∧
    getPrecedence plusTokens (AST.node2 (some 1) (AST.ofTok plusTokens (some 0))
      (AST.ofTok plusTokens (some 2))) = 6 ∧
    ParserEngine.parseBinaryOp plusTokens (ParserEngine.parseAtom plusTokens) 0 = AST.nullAst ∧
    ParserEngine.parsePrefixOp minusTokens (ParserEngine.parseAtom minusTokens) 0 =
      AST.nullAst := by
  have hnull : ∀ ast : AST, ast.failed = true → getPrecedence toks ast = 0 := by
    intro ast h
    exact getPrecedence_null toks ast (by simpa [AST.failed] using h)
  refine ⟨?_, hnull, ?_, ?_, ?_, ?_, by rfl, by rfl, by rfl, by rfl⟩
  · intro ast
    constructor
    · constructor
      · intro h c hc hlt
        have hrej := compilePrecedence_rejects toks ast c hc hlt
        rw [hrej] at h
        rw [← h] at hc
        simp [AST.nullAst, AST.children] at hc
      · intro h
        have hb : childBelow toks (getPrecedence toks ast) ast.children = false := by
          cases hcb : childBelow toks (getPrecedence toks ast) ast.children with
          | false => rfl
          | true =>
            obtain ⟨c, hc, hlt⟩ := (childBelow_iff toks _ _).1 hcb
            exact absurd hlt (h c hc)
        simp [compilePrecedence, hb]
    · rintro ⟨c, hc, hlt⟩
      exact compilePrecedence_rejects toks ast c hc hlt
  · intro t hkind htext
    have hatom : ParserEngine.parseAtom toks t = AST.ofTok toks (some t) := by
      rcases hkind with h | h <;> simp [ParserEngine.parseAtom, ParserEngine.If, h]
    refine ⟨hatom, ?_⟩
    rw [hatom]
    refine getPrecedence_other toks _ t (by simp [AST.ofTok, AST.tok]) htext ?_
    rcases hkind with h | h
    · cases hty : (tokenAt toks t).tokType <;>
        simp [Token.isName, Token.isAssignmentOp, hty] at h ⊢
    · cases hty : (tokenAt toks t).tokType <;>
        simp [Token.isLiteral, Token.isAssignmentOp, hty] at h ⊢
  · intro ast c hc h0 hpos
    exact compilePrecedence_rejects toks ast c hc (by omega)
  · intro t front operand hfront hpos
    exact compilePrecedence_rejects toks _ front (by simp [AST.node2, AST.children])
      (by rw [hnull front hfront]; exact hpos)
  · intro t operand htext
    have h3 := getPrecedence_prefix toks t operand htext
    refine ⟨by simp [AST.node2, AST.isPrefixUnary, AST.children, AST.failed, AST.nullAst,
      AST.tok], h3, ?_⟩
    exact compilePrecedence_rejects toks _ AST.nullAst (by simp [AST.node2, AST.children])
      (by rw [hnull AST.nullAst (by simp [AST.failed, AST.nullAst, AST.tok]), h3]; omega)

end Cppcheck
